import Mathlib

/-!
Verification development for the crochet type checker.

Part 1 embeds the subtype unifier of `crates/crochet_infer/src/unify.rs`
(the functions `unify` and `bind`) over the `crochet_types` data model.
Part 2 embeds the arena-based utilities of `crates/escalier_hm/src/util.rs`
(`prune`, `expand_keyof`, `get_computed_member`, `get_prop`).

Rust `Result<Subst, String>` is embedded as `Except Ux Subst`; a Rust
`todo!()` or other panic (which aborts the run and is not catchable) is
embedded as the distinguished error constructor `Ux.fatal`, which every
"try and continue on failure" loop propagates instead of swallowing.
Recursion of the Rust unifier is not structural (alias resolution and
`keyof` expansion can produce arbitrary types), so the embedding is
fuel-indexed: running out of fuel yields `Ux.fatal`, modelling divergence.
-/

namespace Crochet

/-- Keywords of the type language (`crochet_types::TKeyword`, as listed in
the spec data model and matched in `unify.rs`). -/
inductive TKeyword where
  | number
  | string
  | boolean
  | null
  | symbol
  | undefined
  | never
deriving DecidableEq, Repr

/-- Literal singleton types (`crochet_types::TLit`); numeric literals keep
their source text, as in the Rust AST. -/
inductive TLit where
  | num (value : String)
  | str (value : String)
  | bool (value : Bool)
deriving DecidableEq, Repr

/-- Function-parameter patterns (`crochet_types::TPat`): a binding
identifier or a rest pattern.  `unify.rs` only ever asks whether a pattern
is a rest pattern. -/
inductive TPat where
  | ident (name : String)
  | rest (name : String)
deriving DecidableEq, Repr

/-- Direction of a `bind` request (`unify.rs::Relation`). -/
inductive Rel where
  | subType
  | superType
deriving DecidableEq, Repr

mutual

/-- The type representation used by `unify.rs` (`crochet_types::Type`).
The `crochet_types` crate itself is not under `src/`; the variants and
fields are reconstructed from their uses in `unify.rs` and the spec data
model (§3).  A `var` carries a stable id and an optional constraint; per
the spec, two vars are equal iff their ids match.  `generic` wraps a type
in a type-parameter list (only the parameter names are modelled; `unify.rs`
never inspects constraints or defaults of type parameters). -/
inductive Ty where
  | var (id : Nat) (constraint : Option Ty)
  | keyword (k : TKeyword)
  | lit (l : TLit)
  | lam (params : List TParam) (ret : Ty)
  | app (args : List Ty) (ret : Ty)
  | obj (elems : List TObjElem)
  | tuple (types : List Ty)
  | array (elem : Ty)
  | union (types : List Ty)
  | intersection (types : List Ty)
  | ref (name : String) (typeArgs : Option (List Ty))
  | rest (arg : Ty)
  | keyOf (arg : Ty)
  | generic (typeParams : List String) (body : Ty)

/-- A function parameter (`crochet_types::TFnParam`): pattern, type and
optionality (the `mutable` flag is never read by `unify.rs` and is
omitted). -/
inductive TParam where
  | mk (pat : TPat) (t : Ty) (optional : Bool)

/-- An object element (`crochet_types::TObjElem`): call signature,
constructor signature, indexer, or named property. -/
inductive TObjElem where
  | call (params : List TParam) (ret : Ty) (typeParams : List String)
  | ctor (params : List TParam) (ret : Ty) (typeParams : List String)
  | index (key : TParam) (t : Ty)
  | prop (name : String) (optional : Bool) (mutable : Bool) (t : Ty)

end

/-- Pattern of a parameter (`TFnParam::pat`). -/
def TParam.pat : TParam → TPat
  | .mk p _ _ => p

/-- Type of a parameter (`TFnParam::get_type`, which returns the stored
type unchanged). -/
def TParam.t : TParam → Ty
  | .mk _ t _ => t

/-- Optionality of a parameter. -/
def TParam.optional : TParam → Bool
  | .mk _ _ o => o

mutual

/-- Structural equality of types, as `crochet_types`' `PartialEq` used by
`unify.rs` (the fallback arm, and dedup in `bind`): vars compare by id
only (spec: "two Vars are equal iff ids match"); all other variants
compare structurally. -/
def tyBeq : Ty → Ty → Bool
  | .var id1 _, .var id2 _ => id1 == id2
  | .keyword k1, .keyword k2 => k1 == k2
  | .lit l1, .lit l2 => l1 == l2
  | .lam ps1 r1, .lam ps2 r2 => paramsBeq ps1 ps2 && tyBeq r1 r2
  | .app as1 r1, .app as2 r2 => tysBeq as1 as2 && tyBeq r1 r2
  | .obj es1, .obj es2 => elemsBeq es1 es2
  | .tuple ts1, .tuple ts2 => tysBeq ts1 ts2
  | .array t1, .array t2 => tyBeq t1 t2
  | .union ts1, .union ts2 => tysBeq ts1 ts2
  | .intersection ts1, .intersection ts2 => tysBeq ts1 ts2
  | .ref n1 a1, .ref n2 a2 => n1 == n2 && optTysBeq a1 a2
  | .rest t1, .rest t2 => tyBeq t1 t2
  | .keyOf t1, .keyOf t2 => tyBeq t1 t2
  | .generic tps1 t1, .generic tps2 t2 => tps1 == tps2 && tyBeq t1 t2
  | _, _ => false

/-- Pointwise equality of type lists. -/
def tysBeq : List Ty → List Ty → Bool
  | [], [] => true
  | t1 :: ts1, t2 :: ts2 => tyBeq t1 t2 && tysBeq ts1 ts2
  | _, _ => false

/-- Equality of optional type-argument lists. -/
def optTysBeq : Option (List Ty) → Option (List Ty) → Bool
  | none, none => true
  | some ts1, some ts2 => tysBeq ts1 ts2
  | _, _ => false

/-- Equality of single parameters. -/
def paramBeq : TParam → TParam → Bool
  | .mk p1 t1 o1, .mk p2 t2 o2 => p1 == p2 && tyBeq t1 t2 && o1 == o2

/-- Pointwise equality of parameter lists. -/
def paramsBeq : List TParam → List TParam → Bool
  | [], [] => true
  | p1 :: ps1, p2 :: ps2 => paramBeq p1 p2 && paramsBeq ps1 ps2
  | _, _ => false

/-- Pointwise equality of object-element lists. -/
def elemsBeq : List TObjElem → List TObjElem → Bool
  | [], [] => true
  | .call ps1 r1 tp1 :: es1, .call ps2 r2 tp2 :: es2 =>
      paramsBeq ps1 ps2 && tyBeq r1 r2 && tp1 == tp2 && elemsBeq es1 es2
  | .ctor ps1 r1 tp1 :: es1, .ctor ps2 r2 tp2 :: es2 =>
      paramsBeq ps1 ps2 && tyBeq r1 r2 && tp1 == tp2 && elemsBeq es1 es2
  | .index k1 t1 :: es1, .index k2 t2 :: es2 =>
      paramBeq k1 k2 && tyBeq t1 t2 && elemsBeq es1 es2
  | .prop n1 o1 m1 t1 :: es1, .prop n2 o2 m2 t2 :: es2 =>
      n1 == n2 && o1 == o2 && m1 == m2 && tyBeq t1 t2 && elemsBeq es1 es2
  | _, _ => false

end

mutual

/-- Free type variables of a type, as a list of var ids.  Modelled from
the spec: `ftv` collects the ids of all `Var` occurrences in type-bearing
positions (a var contributes its own id; constraints are part of the
variable's identity and are not traversed).  The `Substitutable` trait
implementation lives in `crochet_infer/src/substitutable.rs`, which is not
under `src/`. -/
def ftvTy : Ty → List Nat
  | .var id _ => [id]
  | .keyword _ => []
  | .lit _ => []
  | .lam ps r => ftvParams ps ++ ftvTy r
  | .app args r => ftvTys args ++ ftvTy r
  | .obj es => ftvElems es
  | .tuple ts => ftvTys ts
  | .array t => ftvTy t
  | .union ts => ftvTys ts
  | .intersection ts => ftvTys ts
  | .ref _ none => []
  | .ref _ (some ts) => ftvTys ts
  | .rest t => ftvTy t
  | .keyOf t => ftvTy t
  | .generic _ t => ftvTy t

/-- Free variables of a list of types. -/
def ftvTys : List Ty → List Nat
  | [] => []
  | t :: ts => ftvTy t ++ ftvTys ts

/-- Free variables of a single parameter. -/
def ftvParam : TParam → List Nat
  | .mk _ t _ => ftvTy t

/-- Free variables of a parameter list. -/
def ftvParams : List TParam → List Nat
  | [] => []
  | p :: ps => ftvParam p ++ ftvParams ps

/-- Free variables of an object-element list. -/
def ftvElems : List TObjElem → List Nat
  | [] => []
  | .call ps r _ :: es => ftvParams ps ++ ftvTy r ++ ftvElems es
  | .ctor ps r _ :: es => ftvParams ps ++ ftvTy r ++ ftvElems es
  | .index k t :: es => ftvParam k ++ ftvTy t ++ ftvElems es
  | .prop _ _ _ t :: es => ftvTy t ++ ftvElems es

end

/-- A substitution (`crochet_infer::substitutable::Subst`): a finite map
from var id to type, modelled as an association list (first binding for an
id wins). -/
def Subst := List (Nat × Ty)

instance : Inhabited Subst := ⟨([] : List (Nat × Ty))⟩

/-- Lookup in a substitution. -/
def substLookup (s : Subst) (id : Nat) : Option Ty :=
  match s with
  | ([] : List (Nat × Ty)) => none
  | p :: rest => if p.1 == id then some p.2 else substLookup rest id

mutual

/-- Application of a substitution (the `Substitutable` trait; its
implementation is not under `src/`).  Modelled from the spec §4.1:
rewrite every `Var` whose id is in the substitution's domain (single
pass), recursing into all type-bearing positions; var constraints are not
changed. -/
def applyTy (s : Subst) : Ty → Ty
  | .var id c =>
      match substLookup s id with
      | some t => t
      | none => .var id c
  | .keyword k => .keyword k
  | .lit l => .lit l
  | .lam ps r => .lam (applyParams s ps) (applyTy s r)
  | .app args r => .app (applyTys s args) (applyTy s r)
  | .obj es => .obj (applyElems s es)
  | .tuple ts => .tuple (applyTys s ts)
  | .array t => .array (applyTy s t)
  | .union ts => .union (applyTys s ts)
  | .intersection ts => .intersection (applyTys s ts)
  | .ref n none => .ref n none
  | .ref n (some ts) => .ref n (some (applyTys s ts))
  | .rest t => .rest (applyTy s t)
  | .keyOf t => .keyOf (applyTy s t)
  | .generic tps t => .generic tps (applyTy s t)

/-- Substitution application over a list of types. -/
def applyTys (s : Subst) : List Ty → List Ty
  | [] => []
  | t :: ts => applyTy s t :: applyTys s ts

/-- Substitution application over a single parameter. -/
def applyParam (s : Subst) : TParam → TParam
  | .mk p t o => .mk p (applyTy s t) o

/-- Substitution application over a parameter list. -/
def applyParams (s : Subst) : List TParam → List TParam
  | [] => []
  | p :: ps => applyParam s p :: applyParams s ps

/-- Substitution application over object elements. -/
def applyElems (s : Subst) : List TObjElem → List TObjElem
  | [] => []
  | .call ps r tp :: es => .call (applyParams s ps) (applyTy s r) tp :: applyElems s es
  | .ctor ps r tp :: es => .ctor (applyParams s ps) (applyTy s r) tp :: applyElems s es
  | .index k t :: es => .index (applyParam s k) (applyTy s t) :: applyElems s es
  | .prop n o m t :: es => .prop n o m (applyTy s t) :: applyElems s es

end

/-- Composition of substitutions (`compose_subs` from
`crochet_infer/src/util.rs`, not under `src/`).  Modelled from the spec
§4.1: `compose(s1, s2)` rewrites every binding of `s2` by `s1` and then
adds the bindings of `s1` whose ids are not already mapped. -/
def composeSubs (s1 s2 : Subst) : Subst :=
  (s2.map (fun p => (p.1, applyTy s1 p.2)))
    ++ s1.filter (fun p => (substLookup s2 p.1).isNone)

/-- Fold-composition of a list of substitutions (`compose_many_subs`, not
under `src/`).  Modelled from the spec: substitutions compose
left-to-right. -/
def composeManySubs (ss : List Subst) : Subst :=
  ss.foldl composeSubs ([] : List (Nat × Ty))

/-- The `compose_many_subs_with_context` variant (not under `src/`);
modelled identically to `composeManySubs`, which the spec describes for
all composition sites. -/
def composeManySubsWithContext (ss : List Subst) : Subst :=
  composeManySubs ss

/-- Errors of the unifier: `uerr` embeds a Rust `Err(String)`; `fatal`
embeds a panic (`todo!()` or running out of fuel), which no recovery loop
catches. -/
inductive Ux where
  | uerr (msg : String)
  | fatal (msg : String)
deriving DecidableEq, Repr

/-- Printer for keywords. -/
def showKeyword : TKeyword → String
  | .number => "number"
  | .string => "string"
  | .boolean => "boolean"
  | .null => "null"
  | .symbol => "symbol"
  | .undefined => "undefined"
  | .never => "never"

/-- Printer for literals. -/
def showLit : TLit → String
  | .num v => v
  | .str v => "\"" ++ v ++ "\""
  | .bool true => "true"
  | .bool false => "false"

/-- Join a list of strings with a separator. -/
def joinSep (sep : String) : List String → String
  | [] => ""
  | [x] => x
  | x :: xs => x ++ sep ++ joinSep sep xs

mutual

/-- Syntactic printer for types, used only to build error-message strings.
Modelled from the spec §6 (the `Display` impls of `crochet_types` are not
under `src/`): vars as `t<id>`, union as `a | b`, intersection as
`a & b`, tuple `[..]`, array `T[]`, lam `(p: T, ..) => R`, object
`\x7bk: T, ..\x7d`. -/
def showTy : Ty → String
  | .var id _ => "t" ++ toString id
  | .keyword k => showKeyword k
  | .lit l => showLit l
  | .lam ps r => "(" ++ joinSep ", " (showParams ps) ++ ") => " ++ showTy r
  | .app args r => "(" ++ joinSep ", " (showTys args) ++ ") => " ++ showTy r
  | .obj es => "\x7b" ++ joinSep ", " (showElems es) ++ "\x7d"
  | .tuple ts => "[" ++ joinSep ", " (showTys ts) ++ "]"
  | .array t => showTy t ++ "[]"
  | .union ts => joinSep " | " (showTys ts)
  | .intersection ts => joinSep " & " (showTys ts)
  | .ref n none => n
  | .ref n (some ts) => n ++ "<" ++ joinSep ", " (showTys ts) ++ ">"
  | .rest t => "..." ++ showTy t
  | .keyOf t => "keyof " ++ showTy t
  | .generic tps t => "<" ++ joinSep ", " tps ++ ">" ++ showTy t

/-- Printer for type lists. -/
def showTys : List Ty → List String
  | [] => []
  | t :: ts => showTy t :: showTys ts

/-- Printer for a single parameter. -/
def showParam : TParam → String
  | .mk (.ident n) t _ => n ++ ": " ++ showTy t
  | .mk (.rest n) t _ => "..." ++ n ++ ": " ++ showTy t

/-- Printer for parameter lists. -/
def showParams : List TParam → List String
  | [] => []
  | p :: ps => showParam p :: showParams ps

/-- Printer for object elements. -/
def showElems : List TObjElem → List String
  | [] => []
  | .call ps r _ :: es => ("(" ++ joinSep ", " (showParams ps) ++ ") => " ++ showTy r) :: showElems es
  | .ctor ps r _ :: es => ("new (" ++ joinSep ", " (showParams ps) ++ ") => " ++ showTy r) :: showElems es
  | .index k t :: es => ("[" ++ showParam k ++ "]: " ++ showTy t) :: showElems es
  | .prop n o _ t :: es => (n ++ (if o then "?" else "") ++ ": " ++ showTy t) :: showElems es

end

/-- The inference context as seen from `unify.rs`.  Modelled from the
spec: `crochet_infer::context::Context` is not under `src/`; `unify` only
uses it to resolve a `Ref` to an instantiated aliased type (§4.5) and to
expand `keyof` (§4.6, `crochet_infer::key_of::key_of`), so those two
collaborators are supplied as functions. -/
structure Ctx where
  lookupRefAndInstantiate : String → Option (List Ty) → Except Ux Ty
  keyOfFn : Ty → Except Ux Ty

/-- Whether a literal is a subtype of a keyword (the `matches!` table of
the `Lit ≤ Keyword` arm). -/
def litMatchesKeyword : TLit → TKeyword → Bool
  | .num _, .number => true
  | .str _, .string => true
  | .bool _, .boolean => true
  | _, _ => false

/-- The keyword-vs-keyword table of `unify.rs` (lines 492-502): equal
keywords other than `never` unify; the only arm mentioning `never` is
`(Never, Null)`. -/
def unifyKeywords (k1 k2 : TKeyword) (t1 t2 : Ty) : Except Ux Subst :=
  match k1, k2 with
  | .number, .number => .ok []
  | .string, .string => .ok []
  | .boolean, .boolean => .ok []
  | .null, .null => .ok []
  | .symbol, .symbol => .ok []
  | .undefined, .undefined => .ok []
  | .never, .null => .ok []
  | _, _ => .error (.uerr ("Can't unify " ++ showTy t1 ++ " with " ++ showTy t2))

/-- The rest parameter of a lambda, if its last parameter has a rest
pattern (`unify.rs` lines 114-122). -/
def maybeRestParam (params : List TParam) : Option Ty :=
  match params.getLast? with
  | some p =>
      match p.pat with
      | .rest _ => some p.t
      | _ => none
  | none => none

/-- Number of optional parameters (`unify.rs` lines 131-137). -/
def countOptional (params : List TParam) : Nat :=
  params.countP (fun p => p.optional)

/-- The lower bound on the argument count of a call (`unify.rs` lines
139-142).  Subtraction is `Nat` subtraction; the Rust `usize` arithmetic
underflows only in the degenerate case where every parameter including
the rest parameter is optional. -/
def paramCountLowBound (params : List TParam) : Nat :=
  match maybeRestParam params with
  | some _ => params.length - countOptional params - 1
  | none => params.length - countOptional params

/-- Spread flattening of call arguments (`unify.rs` lines 148-158): a
`Rest` argument whose operand is a `Tuple` is expanded inline; a `Rest`
argument with any other operand aborts with a spread-not-allowed error;
other arguments are kept. -/
def flattenArgs : List Ty → Except Ux (List Ty)
  | [] => .ok []
  | .rest sp :: rest =>
      match sp with
      | .tuple ts =>
          match flattenArgs rest with
          | .ok r => .ok (ts ++ r)
          | .error e => .error e
      | _ => .error (.uerr ("spread of type " ++ showTy sp ++ " not allowed"))
  | a :: rest =>
      match flattenArgs rest with
      | .ok r => .ok (a :: r)
      | .error e => .error e

/-- Whether `t` is a `Var` with the given id (the guard of `bind`'s first
arm, with var equality by id per the spec). -/
def isVarWithId (id : Nat) : Ty → Bool
  | .var id2 _ => id2 == id
  | _ => false

/-- The occurs check (`unify.rs::occurs_check`): whether the var id
appears among the free variables of `t`. -/
def occursCheck (id : Nat) (t : Ty) : Bool :=
  (ftvTy t).contains id

/-- Deduplication of a list of types by structural equality, keeping the
first occurrence.  The Rust code dedupes through a `HashSet<Type>`, whose
iteration order is unspecified; this embedding fixes first-occurrence
order. -/
def dedupTys (ts : List Ty) : List Ty :=
  ts.foldl (fun acc t => if acc.any (fun u => tyBeq u t) then acc else acc ++ [t]) []

/-- The union alternatives of `t` left after dropping the var `id`, when
`t` is a `Union` that contains `id` as a direct alternative; `none`
otherwise.  This mirrors the filter in `bind`'s occurs-check escape
(`unify.rs` lines 535-545). -/
def unionDirectAlts (id : Nat) : Ty → Option (List Ty)
  | .union elemTypes =>
      let without := elemTypes.filter (fun et =>
        match et with
        | .var oid _ => oid != id
        | _ => true)
      if without.length < elemTypes.length then some without else none
  | _ => none

/-- Collapse a one-element list to its element, otherwise build a `Union`
(`unify.rs` lines 553-557). -/
def collapseUnion (ts : List Ty) : Ty :=
  match ts with
  | [single] => single
  | _ => .union ts

/-- The occurs-check branch of `bind` (`unify.rs` lines 533-563): a
`Union` containing the variable as a direct alternative drops those
alternatives, dedupes, collapses a singleton and succeeds; every other
type with an occurrence yields the InfiniteType error. -/
def bindOccurs (id : Nat) (t : Ty) : Except Ux Subst :=
  match unionDirectAlts id t with
  | some without =>
      let types := dedupTys without
      .ok [(id, collapseUnion types)]
  | none => .error (.uerr "InfiniteType")

/-- The constraint branch of `bind` (`unify.rs` lines 565-591): when the
variable carries a constraint, unify it against `t` in the direction
given by `rel`; a target var without a constraint inherits it; a target
var with its own constraint hits a `todo!()`. -/
def bindConstraint (recur : Ty → Ty → Except Ux Subst) (id : Nat)
    (constraint : Option Ty) (t : Ty) (rel : Rel) : Except Ux Subst :=
  match constraint with
  | some c =>
      let r := match rel with
        | .subType => recur c t
        | .superType => recur t c
      match r with
      | .error e => .error e
      | .ok _ =>
          match t with
          | .var id2 c2 =>
              match c2 with
              | some _ => .error (.fatal "not yet implemented: merge constraints")
              | none => .ok [(id, .var id2 (some c))]
          | _ => .ok [(id, t)]
  | none => .ok [(id, t)]

/-- `bind` (`unify.rs` lines 523-595), parameterized by the recursive
unifier used for the constraint check: binding a var to itself is the
empty substitution; an occurring var goes through `bindOccurs`; otherwise
the constraint branch produces the singleton substitution. -/
def bindWith (recur : Ty → Ty → Except Ux Subst) (id : Nat)
    (constraint : Option Ty) (t : Ty) (rel : Rel) : Except Ux Subst :=
  if isVarWithId id t then .ok []
  else if occursCheck id t then bindOccurs id t
  else bindConstraint recur id constraint t rel

/-- Unify a list of pairs left to right, threading the accumulated
substitution through `apply` and composing (the loop shape shared by the
`App ≤ App`, `Lam ≤ Lam` and `App ≤ Lam` arms). -/
def unifySeq (recur : Ty → Ty → Except Ux Subst) :
    Subst → List (Ty × Ty) → Except Ux Subst
  | s, [] => .ok s
  | s, (a, b) :: rest =>
      match recur (applyTy s a) (applyTy s b) with
      | .error e => .error e
      | .ok s1 => unifySeq recur (composeSubs s s1) rest

/-- Unify a pair list then the return types, composing as in the
`App ≤ App` and `Lam ≤ Lam` arms. -/
def unifySeqRet (recur : Ty → Ty → Except Ux Subst)
    (pairs : List (Ty × Ty)) (r1 r2 : Ty) : Except Ux Subst :=
  match unifySeq recur [] pairs with
  | .error e => .error e
  | .ok s =>
      match recur (applyTy s r1) (applyTy s r2) with
      | .error e => .error e
      | .ok s1 => .ok (composeSubs s s1)

/-- The callables of an object (`unify.rs` lines 74-97): each `Call`
element becomes a lambda, wrapped in `Generic` when it has type
parameters. -/
def objCallables (elems : List TObjElem) : List Ty :=
  elems.filterMap (fun e =>
    match e with
    | .call ps ret tps =>
        some (if tps.isEmpty then Ty.lam ps ret else .generic tps (.lam ps ret))
    | _ => none)

/-- First-success loop over candidate supertypes (the `App ≤ Object` and
`App ≤ Intersection` arms): recoverable failures move to the next
candidate, a panic aborts, and exhaustion yields the arm's error. -/
def firstOk (recur : Ty → Ty → Except Ux Subst) (t1 : Ty) (failMsg : String) :
    List Ty → Except Ux Subst
  | [] => .error (.uerr failMsg)
  | c :: cs =>
      match recur t1 c with
      | .ok s => .ok s
      | .error (.fatal m) => .error (.fatal m)
      | .error (.uerr _) => firstOk recur t1 failMsg cs

/-- The `App ≤ Lam` arm (`unify.rs` lines 111-213).  Arguments are spread
flattened, the arity lower bound is checked against the flattened count.
With a rest parameter, the first `min(|params|-1, |flattened|)` of the
RAW argument list unify with the leading parameters, the remaining raw
arguments are bundled into a tuple unified with the rest parameter, and
the final substitution composes only the return-type and rest
substitutions (as the source does).  Without a rest parameter the
flattened arguments unify positionally (extras ignored by `zip`). -/
def unifyAppLam (recur : Ty → Ty → Except Ux Subst)
    (args : List Ty) (appRet : Ty) (params : List TParam) (lamRet : Ty) :
    Except Ux Subst :=
  let lowBound := paramCountLowBound params
  match flattenArgs args with
  | .error e => .error e
  | .ok flatArgs =>
      if flatArgs.length < lowBound then .error (.uerr "Not enough args provided")
      else
        match maybeRestParam params with
        | some restParam =>
            let maxRegular := params.length - 1
            let regularCount := min maxRegular flatArgs.length
            let regularArgs := args.take regularCount
            let restArg := Ty.tuple (args.drop regularCount)
            let regularParams := params.take regularCount
            match unifySeq recur [] (regularArgs.zip (regularParams.map TParam.t)) with
            | .error e => .error e
            | .ok s =>
                match recur restArg restParam with
                | .error e => .error e
                | .ok s1 =>
                    match recur (applyTy s appRet) (applyTy s lamRet) with
                    | .error e => .error e
                    | .ok s2 => .ok (composeSubs s2 s1)
        | none =>
            if flatArgs.length ≥ lowBound then
              unifySeqRet recur (flatArgs.zip (params.map TParam.t)) appRet lamRet
            else .error (.uerr "Not enough params provided")

/-- The property type used when matching object properties
(`crochet_infer::util::get_property_type`, not under `src/`).  Modelled
from the spec §4.7 and the in-repo `TProp::get_type` of an earlier
revision: an optional property reads as `T | undefined`. -/
def getPropertyType (optional : Bool) (t : Ty) : Ty :=
  if optional then .union [t, .keyword .undefined] else t

/-- The inner loop of the `Object ≤ Object` arm for one supertype element
(`unify.rs` lines 230-252): scan the subtype elements; a `(Call, Call)`
pair hits a `todo!()`; a same-named `(Prop, Prop)` pair whose property
types unify records the substitution and marks the element matched;
recoverable unification failures are swallowed. -/
def objElemScan (recur : Ty → Ty → Except Ux Subst) (e2 : TObjElem) :
    List TObjElem → Bool → List Subst → Except Ux (Bool × List Subst)
  | [], b, ss => .ok (b, ss)
  | e1 :: rest, b, ss =>
      match e1, e2 with
      | .call _ _ _, .call _ _ _ => .error (.fatal "not yet implemented")
      | .prop n1 o1 _ t1, .prop n2 o2 _ t2 =>
          if n1 == n2 then
            match recur (getPropertyType o1 t1) (getPropertyType o2 t2) with
            | .ok s => objElemScan recur e2 rest true (ss ++ [s])
            | .error (.fatal m) => .error (.fatal m)
            | .error (.uerr _) => objElemScan recur e2 rest b ss
          else objElemScan recur e2 rest b ss
      | _, _ => objElemScan recur e2 rest b ss

/-- The per-supertype-element result of the `Object ≤ Object` arm
(`unify.rs` lines 254-269): a matched element composes its recorded
substitutions; an unmatched optional property yields the empty
substitution; any other unmatched element is a unification failure. -/
def unifyObjElem (recur : Ty → Ty → Except Ux Subst) (e2 : TObjElem)
    (elems1 : List TObjElem) : Except Ux Subst :=
  match objElemScan recur e2 elems1 false [] with
  | .error e => .error e
  | .ok (true, ss) => .ok (composeManySubs ss)
  | .ok (false, _) =>
      match e2 with
      | .prop _ o _ _ =>
          if o then .ok [] else .error (.uerr "Unification failure")
      | _ => .error (.uerr "Unification failure")

/-- Collect the per-element results over the supertype's elements,
short-circuiting on the first error (the `collect::<Result<Vec<_>, _>>`
of `unify.rs` lines 226-271). -/
def unifyObjElems (recur : Ty → Ty → Except Ux Subst)
    (elems1 : List TObjElem) : List TObjElem → Except Ux (List Subst)
  | [] => .ok []
  | e2 :: rest =>
      match unifyObjElem recur e2 elems1 with
      | .error e => .error e
      | .ok s =>
          match unifyObjElems recur elems1 rest with
          | .error e => .error e
          | .ok ss => .ok (s :: ss)

/-- The `Object ≤ Object` arm (`unify.rs` lines 223-275). -/
def unifyObjObj (recur : Ty → Ty → Except Ux Subst)
    (elems1 elems2 : List TObjElem) : Except Ux Subst :=
  match unifyObjElems recur elems1 elems2 with
  | .error e => .error e
  | .ok ss => .ok (composeManySubs ss)

/-- Split a supertype tuple into the elements before a `Rest`, the rest
element, and the elements after it, rejecting two rests (`unify.rs` lines
277-296). -/
def splitTupleSuper :
    List Ty → List Ty → Option Ty → List Ty →
    Except Ux (List Ty × Option Ty × List Ty)
  | [], before, mrest, after => .ok (before, mrest, after)
  | .rest r :: ts, before, mrest, after =>
      match mrest with
      | some _ => .error (.uerr "Only one rest pattern is allowed in a tuple")
      | none => splitTupleSuper ts before (some r) after
  | t :: ts, before, mrest, after =>
      match mrest with
      | some _ => splitTupleSuper ts before mrest (after ++ [t])
      | none => splitTupleSuper ts (before ++ [t]) mrest after

/-- Unify two lists of types pairwise without substitution threading,
collecting the substitutions (the loop of the `Tuple ≤ Tuple` arm). -/
def unifyPairsCollect (recur : Ty → Ty → Except Ux Subst) :
    List (Ty × Ty) → Except Ux (List Subst)
  | [] => .ok []
  | (a, b) :: rest =>
      match recur a b with
      | .error e => .error e
      | .ok s =>
          match unifyPairsCollect recur rest with
          | .error e => .error e
          | .ok ss => .ok (s :: ss)

/-- The `Tuple ≤ Tuple` arm (`unify.rs` lines 276-333). -/
def unifyTupleTuple (recur : Ty → Ty → Except Ux Subst)
    (types1 types2 : List Ty) : Except Ux Subst :=
  match splitTupleSuper types2 [] none [] with
  | .error e => .error e
  | .ok (before2, maybeRest2, after2) =>
      let minLen := before2.length + after2.length
      if types1.length < minLen then .error (.uerr "not enough elements to unpack")
      else
        let restLen := types1.length - minLen
        let before1 := types1.take before2.length
        let remaining := types1.drop before2.length
        match unifyPairsCollect recur (before1.zip before2) with
        | .error e => .error e
        | .ok ss =>
            match maybeRest2 with
            | some rest2 =>
                let rest1 := remaining.take restLen
                let after1 := remaining.drop restLen
                match recur (.tuple rest1) rest2 with
                | .error e => .error e
                | .ok s =>
                    match unifyPairsCollect recur (after1.zip after2) with
                    | .error e => .error e
                    | .ok ss2 => .ok (composeManySubs (ss ++ [s] ++ ss2))
            | none => .ok (composeManySubs ss)

/-- The `Tuple ≤ Array` arm (`unify.rs` lines 334-345). -/
def unifyTupleArray (recur : Ty → Ty → Except Ux Subst)
    (tupleTypes : List Ty) (arrayType : Ty) : Except Ux Subst :=
  match tupleTypes with
  | [] => .ok []
  | _ =>
      match unifyPairsCollect recur (tupleTypes.map (fun t => (t, arrayType))) with
      | .error e => .error e
      | .ok ss => .ok (composeManySubs ss)

/-- The `Union` on the left arm (`unify.rs` lines 349-353): every
alternative must unify with the right-hand type. -/
def unifyUnionLeft (recur : Ty → Ty → Except Ux Subst)
    (types : List Ty) (t2 : Ty) : Except Ux Subst :=
  match unifyPairsCollect recur (types.map (fun t => (t, t2))) with
  | .error e => .error e
  | .ok ss => .ok (composeManySubsWithContext ss)

/-- The collection loop of the `Union` on the right arm (`unify.rs` lines
354-369): successes are collected, recoverable failures skipped, panics
propagate. -/
def unionRightScan (recur : Ty → Ty → Except Ux Subst) (t1 : Ty) :
    List Ty → Bool → List Subst → Except Ux (Bool × List Subst)
  | [], b, ss => .ok (b, ss)
  | t2 :: rest, b, ss =>
      match recur t1 t2 with
      | .ok s => unionRightScan recur t1 rest true (ss ++ [s])
      | .error (.fatal m) => .error (.fatal m)
      | .error (.uerr _) => unionRightScan recur t1 rest b ss

/-- The `Union` on the right arm: at least one alternative must accept
`t1`. -/
def unifyUnionRight (recur : Ty → Ty → Except Ux Subst) (t1 : Ty)
    (types : List Ty) : Except Ux Subst :=
  match unionRightScan recur t1 types false [] with
  | .error e => .error e
  | .ok (true, ss) => .ok (composeManySubs ss)
  | .ok (false, _) => .error (.uerr "Unification failure")

/-- Merging of the object members of an intersection
(`crochet_infer::util::simplify_intersection`, not under `src/`).
Modelled from the spec §4.3 rule 16 and the earlier in-repo revision
(`src/infer/infer_expr.rs`): properties of all object members are grouped
by name (result sorted by name), same-named property types are deduped
and intersected, non-object members are kept, and a single resulting
member is returned unwrapped. -/
def simplifyIntersection (inTypes : List Ty) : Ty :=
  let propLists := inTypes.filterMap (fun t =>
    match t with
    | .obj elems => some elems
    | _ => none)
  let allProps := propLists.flatten.filterMap (fun e =>
    match e with
    | .prop n _ _ t => some (n, t)
    | _ => none)
  let names := (allProps.map Prod.fst).eraseDups.mergeSort (fun a b => a ≤ b)
  let props := names.map (fun n =>
    let types := dedupTys ((allProps.filter (fun p => p.1 == n)).map Prod.snd)
    let t := match types with
      | [single] => single
      | _ => Ty.intersection types
    TObjElem.prop n false false t)
  let objType := Ty.obj props
  let notObjTypes := inTypes.filter (fun t =>
    match t with
    | .obj _ => false
    | _ => true)
  let outTypes := notObjTypes ++ [objType]
  match outTypes with
  | [single] => single
  | _ => .intersection outTypes

/-- Whether an object element matches any element of `allObjElems` by
name, with the `(Call, Call)` `todo!()` of `unify.rs` lines 396-401. -/
def elemMatchesAny (e : TObjElem) : List TObjElem → Except Ux Bool
  | [] => .ok false
  | oe :: rest =>
      match oe, e with
      | .call _ _ _, .call _ _ _ => .error (.fatal "not yet implemented")
      | .prop opName _ _ _, .prop pName _ _ _ =>
          if opName == pName then .ok true else elemMatchesAny e rest
      | _, _ => elemMatchesAny e rest

/-- Partition object elements into those matching an element of
`allObjElems` and the residual (the `partition` of `unify.rs` lines
394-402), propagating the `todo!()` panic. -/
def partitionElems (allObjElems : List TObjElem) :
    List TObjElem → Except Ux (List TObjElem × List TObjElem)
  | [] => .ok ([], [])
  | e :: rest =>
      match elemMatchesAny e allObjElems with
      | .error err => .error err
      | .ok b =>
          match partitionElems allObjElems rest with
          | .error err => .error err
          | .ok (yes, no) =>
              if b then .ok (e :: yes, no) else .ok (yes, e :: no)

/-- The object members and the var members of an intersection (the two
filters of `unify.rs` lines 371-381). -/
def intersectionParts (types : List Ty) : List Ty × List Ty :=
  (types.filter (fun t => match t with | .obj _ => true | _ => false),
   types.filter (fun t => match t with | .var _ _ => true | _ => false))

/-- The `Object ≤ Intersection` arm (`unify.rs` lines 370-414). -/
def unifyObjIntersection (recur : Ty → Ty → Except Ux Subst)
    (t1 : Ty) (elems : List TObjElem) (types : List Ty) : Except Ux Subst :=
  let (objTypes, restTypes) := intersectionParts types
  let objType := simplifyIntersection objTypes
  match restTypes with
  | [] => recur t1 objType
  | [restType] =>
      let allObjElems := match objType with
        | .obj es => es
        | _ => []
      match partitionElems allObjElems elems with
      | .error e => .error e
      | .ok (objElems, restElems) =>
          match recur (.obj objElems) objType with
          | .error e => .error e
          | .ok s1 =>
              match recur (.obj restElems) restType with
              | .error e => .error e
              | .ok s2 => .ok (composeSubs s2 s1)
  | _ => .error (.uerr "Unification is undecidable")

/-- The `Intersection ≤ Object` arm (`unify.rs` lines 415-459), the
mirror image of `unifyObjIntersection`. -/
def unifyIntersectionObj (recur : Ty → Ty → Except Ux Subst)
    (types : List Ty) (elems : List TObjElem) (t2 : Ty) : Except Ux Subst :=
  let (objTypes, restTypes) := intersectionParts types
  let objType := simplifyIntersection objTypes
  match restTypes with
  | [] => recur objType t2
  | [restType] =>
      let allObjElems := match objType with
        | .obj es => es
        | _ => []
      match partitionElems allObjElems elems with
      | .error e => .error e
      | .ok (objElems, restElems) =>
          match recur objType (.obj objElems) with
          | .error e => .error e
          | .ok sObj =>
              match recur restType (.obj restElems) with
              | .error e => .error e
              | .ok sRest => .ok (composeSubs sRest sObj)
  | _ => .error (.uerr "Unification is undecidable")

/-- The `Ref ≤ Ref` arm (`unify.rs` lines 461-479): same names zip the
type-argument lists and unify pointwise; mismatched argument presence is
an alias-type-mismatch error; different names hit a `todo!()` (the Rust
code panics instead of resolving the aliases). -/
def unifyRefRef (recur : Ty → Ty → Except Ux Subst)
    (name1 : String) (args1 : Option (List Ty))
    (name2 : String) (args2 : Option (List Ty)) : Except Ux Subst :=
  if name1 == name2 then
    match args1, args2 with
    | some tp1, some tp2 =>
        match unifyPairsCollect recur (tp1.zip tp2) with
        | .error e => .error e
        | .ok ss => .ok (composeManySubsWithContext ss)
    | none, none => .ok []
    | _, _ => .error (.uerr "Alias type mismatch")
  else
    .error (.fatal
      "not yet implemented: unify(): handle aliases that point to another alias")

/-- One step of the unifier (`unify.rs` lines 13-515), parameterized by
the recursive call.  The arms appear in the source order; the first
matching arm wins, exactly as in the Rust `match`. -/
def unifyWith (recur : Ty → Ty → Except Ux Subst) (ctx : Ctx) (t1 t2 : Ty) :
    Except Ux Subst :=
  match t1, t2 with
  | .var id c, _ => bindWith recur id c t2 .subType
  | _, .var id c => bindWith recur id c t1 .superType
  | .lit l, .keyword k =>
      if litMatchesKeyword l k then .ok []
      else .error (.uerr "Unification failure")
  | .app args1 ret1, .app args2 ret2 =>
      if args1.length == args2.length then
        unifySeqRet recur (args1.zip args2) ret1 ret2
      else .error (.uerr "Couldn't unify function calls")
  | .lam params1 ret1, .lam params2 ret2 =>
      if params1.length ≤ params2.length then
        unifySeqRet recur
          ((params1.zip params2).map (fun p => (p.2.t, p.1.t))) ret1 ret2
      else .error (.uerr "Couldn't unify lambdas")
  | .lam _ _, .app _ _ => recur t2 t1
  | .app _ _, .obj elems =>
      firstOk recur t1 "Couldn't application with object" (objCallables elems)
  | .app args ret, .lam params lamRet => unifyAppLam recur args ret params lamRet
  | .app _ _, .intersection types =>
      firstOk recur t1 "Couldn't unify lambda with intersection" types
  | .obj elems1, .obj elems2 => unifyObjObj recur elems1 elems2
  | .tuple types1, .tuple types2 => unifyTupleTuple recur types1 types2
  | .tuple tupleTypes, .array arrayType => unifyTupleArray recur tupleTypes arrayType
  | .array a1, .array a2 => recur a1 a2
  | .union types, _ => unifyUnionLeft recur types t2
  | _, .union types => unifyUnionRight recur t1 types
  | .obj elems, .intersection types => unifyObjIntersection recur t1 elems types
  | .intersection types, .obj elems => unifyIntersectionObj recur types elems t2
  | .ref name1 args1, .ref name2 args2 => unifyRefRef recur name1 args1 name2 args2
  | _, .ref name args =>
      match ctx.lookupRefAndInstantiate name args with
      | .error e => .error e
      | .ok aliasT => recur t1 aliasT
  | .ref name args, _ =>
      match ctx.lookupRefAndInstantiate name args with
      | .error e => .error e
      | .ok aliasT => recur aliasT t2
  | .array arrayArg, .rest restArg => recur arrayArg restArg
  | _, .keyOf t =>
      match ctx.keyOfFn t with
      | .error e => .error e
      | .ok k => recur t1 k
  | .keyword k1, .keyword k2 => unifyKeywords k1 k2 t1 t2
  | _, _ => if tyBeq t1 t2 then .ok [] else .error (.uerr "Unification failure")

/-- The fuel-indexed unifier: `unify (n+1)` runs one source step with
recursive calls at fuel `n`; exhausted fuel is a `fatal` (models
divergence of the Rust recursion). -/
def unify : Nat → Ctx → Ty → Ty → Except Ux Subst
  | 0, _, _, _ => .error (.fatal "recursion limit")
  | n + 1, ctx, t1, t2 => unifyWith (unify n ctx) ctx t1 t2

/-- `bind` at a given fuel: the binding step with the unifier at the same
fuel for constraint checks (this is how `unify (n+1)` invokes it). -/
def bind (fuel : Nat) (ctx : Ctx) (id : Nat) (constraint : Option Ty)
    (t : Ty) (rel : Rel) : Except Ux Subst :=
  bindWith (unify fuel ctx) id constraint t rel

/-- A default context whose resolver knows no aliases (the collaborators
fail on any lookup); concrete evaluations below never reach them. -/
def ctx0 : Ctx where
  lookupRefAndInstantiate := fun name _ =>
    .error (.uerr ("Can't find type alias for " ++ name))
  keyOfFn := fun _ => .error (.uerr "keyof failure")

end Crochet

namespace Escalier

/-!
Embedding of `crates/escalier_hm/src/util.rs`.  Types live in an arena
(`generational_arena::Arena<Type>`), modelled as a list of type kinds
indexed by position; `arena.insert` appends.  The `escalier_hm` type
definitions (`types.rs`), context, unifier and error type are not under
`src/`; they are modelled from their uses in `util.rs` and the spec.
Every function that mutates the arena returns the new arena alongside its
result.  A Rust panic (`todo!()`, `unwrap()` on a missing index, or
divergence) is embedded as the error constructor `HmErr.fatal`.
-/

/-- AST literals as carried by literal types (`escalier_hm`'s `Lit`);
numeric and string literals keep their source text. -/
inductive HmLit where
  | num (value : String)
  | str (value : String)
  | bool (value : Bool)
deriving DecidableEq, Repr

/-- Property keys (`TPropKey`): string-named or number-named, each
carrying the raw text. -/
inductive HmPropKey where
  | stringKey (value : String)
  | numberKey (value : String)
deriving DecidableEq, Repr

/-- The raw text of a property key (both arms of the `match name`
extractions in `util.rs`). -/
def HmPropKey.text : HmPropKey → String
  | .stringKey v => v
  | .numberKey v => v

/-- A function parameter (`escalier_hm`'s `FuncParam`): `util.rs` reads
only its type index. -/
structure HmFuncParam where
  t : Nat
deriving DecidableEq, Repr

/-- An indexer key (`TIndexKey`): `util.rs` reads only its type index
(`indexer.key.t`). -/
structure HmIndexKey where
  t : Nat
deriving DecidableEq, Repr

/-- Object elements (`escalier_hm`'s `TObjElem`): methods, a single
indexer, or named properties.  All contained types are arena indices. -/
inductive HmObjElem where
  | method (name : HmPropKey) (params : List HmFuncParam) (ret : Nat)
  | index (key : HmIndexKey) (t : Nat)
  | prop (name : HmPropKey) (optional : Bool) (t : Nat)
deriving DecidableEq, Repr

/-- Type kinds (`escalier_hm`'s `TypeKind`).  `tvar` is
`TypeKind::Variable` with its `instance` pointer (`inst`); `ctorK` is
`TypeKind::Constructor` (used for keywords, `@@tuple`, `@@union` and
aliases); `func` is `TypeKind::Function`; `utility` carries `@@keyof` /
`@@index`.  All contained types are arena indices. -/
inductive HmKind where
  | tvar (inst : Option Nat)
  | literal (l : HmLit)
  | object (props : List HmObjElem)
  | restK (arg : Nat)
  | func (params : List HmFuncParam) (ret : Nat)
  | ctorK (name : String) (types : List Nat)
  | utility (name : String) (types : List Nat)
deriving DecidableEq, Repr

/-- The arena: a list of type kinds, indexed by position (`Index` is the
position; `insert` appends at the end). -/
abbrev Arena := List HmKind

/-- Arena lookup (`arena.get(i)` / `arena[i]`). -/
def aget (a : Arena) (i : Nat) : Option HmKind :=
  a.get? i

/-- Arena insertion (`arena.insert`), returning the new arena and the
fresh index. -/
def ainsert (a : Arena) (k : HmKind) : Arena × Nat :=
  (a ++ [k], a.length)

/-- Arena update at an index (`arena.get_mut`). -/
def aset (a : Arena) (i : Nat) (k : HmKind) : Arena :=
  a.set i k

/-- Errors of the `escalier_hm` utilities (`errors::Errors`, not under
`src/`): `util.rs` constructs only `Errors::InferenceError(String)`;
`fatal` embeds panics (`unwrap` on a bad index, `todo!()`, divergence). -/
inductive HmErr where
  | inferenceError (msg : String)
  | fatal (msg : String)
deriving DecidableEq, Repr

/-- A scheme of the scheme table (`Scheme`): optional type-parameter
names and the underlying type index. -/
structure HmScheme where
  typeParams : Option (List String)
  t : Nat

/-- The context seen by `util.rs`.  Modelled from the spec:
`escalier_hm`'s `Context` is not under `src/`.  It carries the scheme
table; `instantiate_scheme` (alias instantiation, §4.5) and `unify`
(§4.3) are collaborators whose source is not under `src/`, supplied as
functions that may grow the arena. -/
structure HmCtx where
  schemes : List (String × HmScheme)
  instantiateScheme : Arena → Nat → List (String × Nat) → Arena × Nat
  unifyFn : Arena → Nat → Nat → Arena × Except HmErr Unit

/-- Lookup in the scheme table (`ctx.schemes.get(name)`). -/
def schemeLookup (ctx : HmCtx) (name : String) : Option HmScheme :=
  match ctx.schemes.find? (fun p => p.1 == name) with
  | some p => some p.2
  | none => none

/-- A compact printer used to build diagnostic strings.  The source
formats messages with `Type::as_string`, whose implementation is not
under `src/`; the exact text is approximated (no claim depends on it). -/
def hmShow : HmKind → String
  | .tvar _ => "tvar"
  | .literal (.num v) => v
  | .literal (.str v) => "\"" ++ v ++ "\""
  | .literal (.bool true) => "true"
  | .literal (.bool false) => "false"
  | .object _ => "object"
  | .restK _ => "rest"
  | .func _ _ => "function"
  | .ctorK name _ => name
  | .utility name _ => name

/-- `prune` (`util.rs` lines 89-114), fuel-indexed: follow `instance`
pointers until an uninstantiated variable or a non-variable is found,
path-compressing the starting entry.  `none` models a panic (invalid
index) or divergence (a cyclic instance chain). -/
def prune : Nat → Arena → Nat → Option (Arena × Nat)
  | 0, _, _ => none
  | fuel + 1, a, t =>
      match aget a t with
      | none => none
      | some k =>
          match k with
          | .tvar (some v2) =>
              match prune fuel a v2 with
              | none => none
              | some (a1, value) =>
                  match aget a1 t with
                  | none => none
                  | some k2 =>
                      match k2 with
                      | .tvar _ => some (aset a1 t (.tvar (some value)), value)
                      | _ => some (a1, t)
          | _ => some (a, t)

/-- `new_constructor` (from `escalier_hm`'s `types.rs`, not under
`src/`).  Modelled from the spec and its uses: allocates a
`Constructor` node. -/
def newConstructor (a : Arena) (name : String) (types : List Nat) : Arena × Nat :=
  ainsert a (.ctorK name types)

/-- `new_lit_type` (not under `src/`): allocates a literal-type node. -/
def newLitType (a : Arena) (l : HmLit) : Arena × Nat :=
  ainsert a (.literal l)

/-- `new_union_type` (not under `src/`).  Modelled from the spec: the
union constructor is the `@@union` built-in, so this allocates a
`Constructor "@@union"` node over the member indices (which is the shape
`get_computed_member` itself matches union types against). -/
def newUnionType (a : Arena) (types : List Nat) : Arena × Nat :=
  ainsert a (.ctorK "@@union" types)

/-- `expand_alias` (`util.rs` lines 116-151): check the type-argument
arity against the scheme's parameters and instantiate, or return the
scheme body directly when it has no parameters. -/
def expandAlias (a : Arena) (ctx : HmCtx) (name : String) (scheme : HmScheme)
    (typeArgs : List Nat) : Arena × Except HmErr Nat :=
  match scheme.typeParams with
  | some typeParams =>
      if typeParams.length != typeArgs.length then
        (a, .error (.inferenceError
          (name ++ " expects " ++ toString typeParams.length
            ++ " type args, but was passed " ++ toString typeArgs.length)))
      else
        let mapping := typeParams.zip typeArgs
        let (a1, t) := ctx.instantiateScheme a scheme.t mapping
        (a1, .ok t)
  | none =>
      if typeArgs.isEmpty then (a, .ok scheme.t)
      else (a, .error (.inferenceError (name ++ " doesn't require any type args")))

/-- The built-in keyword names that resolve to themselves
(`util.rs` lines 161-170). -/
def keywordNames : List String :=
  ["number", "string", "boolean", "symbol", "null", "undefined", "never"]

/-- The keyword-key loop of `get_prop` (`util.rs` lines 346-385): collect
method and property values whose key kind matches the keyword, track a
single indexer, and error on a second indexer.  Returns the updated
arena, the optional indexer and the collected value indices, or an
early-exit result. -/
def gpKeywordScan (undef : Nat) (ctorName : String) :
    Arena → Option (HmIndexKey × Nat) → List Nat → List HmObjElem →
    (Arena × Except HmErr (Option (HmIndexKey × Nat) × List Nat))
  | a, maybeIndex, values, [] => (a, .ok (maybeIndex, values))
  | a, maybeIndex, values, e :: rest =>
      match e with
      | .method name params ret =>
          let isMatch := match name with
            | .stringKey _ => ctorName == "string"
            | .numberKey _ => ctorName == "number"
          if isMatch then
            let (a1, f) := ainsert a (.func params ret)
            gpKeywordScan undef ctorName a1 maybeIndex (values ++ [f]) rest
          else gpKeywordScan undef ctorName a maybeIndex values rest
      | .index key t =>
          match maybeIndex with
          | some _ =>
              (a, .error (.inferenceError "Object types can only have a single indexer"))
          | none => gpKeywordScan undef ctorName a (some (key, t)) values rest
      | .prop name optional t =>
          let isMatch := match name with
            | .stringKey _ => ctorName == "string"
            | .numberKey _ => ctorName == "number"
          if isMatch then
            if optional then
              let (a1, u) := newUnionType a [t, undef]
              gpKeywordScan undef ctorName a1 maybeIndex (values ++ [u]) rest
            else gpKeywordScan undef ctorName a maybeIndex (values ++ [t]) rest
          else gpKeywordScan undef ctorName a maybeIndex values rest

/-- The string-literal-key loop of `get_prop` (`util.rs` lines 411-451):
a matching method returns its function type, a matching property returns
its type (unioned with `undefined` when optional), an indexer is tracked
with the single-indexer error.  `Sum.inl` is an early return. -/
def gpStrScan (undef : Nat) (name : String) :
    Arena → Option (HmIndexKey × Nat) → List HmObjElem →
    (Arena × Except HmErr Nat) ⊕ (Arena × Option (HmIndexKey × Nat))
  | a, maybeIndex, [] => .inr (a, maybeIndex)
  | a, maybeIndex, e :: rest =>
      match e with
      | .method key params ret =>
          if key.text == name then
            let (a1, f) := ainsert a (.func params ret)
            .inl (a1, .ok f)
          else gpStrScan undef name a maybeIndex rest
      | .index key t =>
          match maybeIndex with
          | some _ =>
              .inl (a, .error (.inferenceError "Object types can only have a single indexer"))
          | none => gpStrScan undef name a (some (key, t)) rest
      | .prop key optional t =>
          if key.text == name then
            if optional then
              let (a1, u) := newUnionType a [t, undef]
              .inl (a1, .ok u)
            else .inl (a, .ok t)
          else gpStrScan undef name a maybeIndex rest

/-- The numeric-literal-key loop of `get_prop` (`util.rs` lines 471-483):
only indexers are considered (numeric-named members are ignored), with
the single-indexer error. -/
def gpNumScan :
    Arena → Option (HmIndexKey × Nat) → List HmObjElem →
    (Arena × Except HmErr (Option (HmIndexKey × Nat)))
  | a, maybeIndex, [] => (a, .ok maybeIndex)
  | a, maybeIndex, e :: rest =>
      match e with
      | .index key t =>
          match maybeIndex with
          | some _ =>
              (a, .error (.inferenceError "Object types can only have a single indexer"))
          | none => gpNumScan a (some (key, t)) rest
      | _ => gpNumScan a maybeIndex rest

/-- The indexer fallback shared by the branches of `get_prop`: unify the
key with the indexer's key type; on success return
`indexer.value | undefined` (with a freshly inserted `undefined`), else
the given error message. -/
def gpIndexerFallback (ctx : HmCtx) (keyIdx : Nat) (indexer : HmIndexKey × Nat)
    (a : Arena) (errMsg : String) : Arena × Except HmErr Nat :=
  let (a1, r) := ctx.unifyFn a keyIdx indexer.1.t
  match r with
  | .ok _ =>
      let (a2, undef2) := newConstructor a1 "undefined" []
      let (a3, u) := newUnionType a2 [indexer.2, undef2]
      (a3, .ok u)
  | .error _ => (a1, .error (.inferenceError errMsg))

/-- `get_prop` (`util.rs` lines 325-516): property lookup on an object
type.  A fresh `undefined` is inserted up front (as in the source); the
key dispatches on keyword constructors, string literals and numeric
literals; a `Utility` key hits a `todo!()`; any other key or a non-object
receiver is an error. -/
def getProp (a0 : Arena) (ctx : HmCtx) (objIdx keyIdx : Nat) :
    Arena × Except HmErr Nat :=
  let (a, undef) := newConstructor a0 "undefined" []
  match aget a objIdx, aget a keyIdx with
  | some (.object props), some keyKind =>
      match keyKind with
      | .ctorK ctorName _ctorArgs =>
          if ctorName == "number" || ctorName == "string" || ctorName == "symbol" then
            match gpKeywordScan undef ctorName a none [] props with
            | (a1, .error e) => (a1, .error e)
            | (a1, .ok (maybeIndex, values)) =>
                match maybeIndex with
                | some indexer =>
                    gpIndexerFallback ctx keyIdx indexer a1
                      (ctorName ++ " is not a valid indexer for object")
                | none =>
                    if !values.isEmpty then
                      let (a2, u) := newUnionType a1 (values ++ [undef])
                      (a2, .ok u)
                    else (a1, .error (.inferenceError "object has no indexer"))
          else (a, .error (.inferenceError (hmShow keyKind ++ " is not a valid key")))
      | .literal (.str name) =>
          match gpStrScan undef name a none props with
          | .inl result => result
          | .inr (a1, maybeIndex) =>
              match maybeIndex with
              | some indexer =>
                  gpIndexerFallback ctx keyIdx indexer a1
                    ("Couldn't find property " ++ name ++ " in object")
              | none =>
                  (a1, .error (.inferenceError
                    ("Couldn't find property '" ++ name ++ "' on object")))
      | .literal (.num name) =>
          match gpNumScan a none props with
          | (a1, .error e) => (a1, .error e)
          | (a1, .ok maybeIndex) =>
              match maybeIndex with
              | some indexer =>
                  gpIndexerFallback ctx keyIdx indexer a1
                    ("Couldn't find property " ++ name ++ " in object")
              | none =>
                  (a1, .error (.inferenceError
                    ("Couldn't find property '" ++ name ++ "' on object")))
      | .utility _ _ => (a, .error (.fatal "not yet implemented"))
      | _ => (a, .error (.inferenceError (hmShow keyKind ++ " is not a valid key")))
  | some _, some _ =>
      (a, .error (.inferenceError "Can't access property on non-object type"))
  | _, _ => (a, .error (.fatal "invalid arena index"))

/-- The numeric-literal text parser (`str::parse::<usize>` in the
source), modelled as plain decimal-digit parsing: all-digit non-empty
text parses to its value, anything else fails. -/
def parseDigits : List Char → Nat → Option Nat
  | [], acc => some acc
  | c :: cs, acc =>
      if c.isDigit then parseDigits cs (acc * 10 + (c.toNat - 48)) else none

/-- Parse a numeric-literal text as a `usize` index. -/
def parseNat (s : String) : Option Nat :=
  match s.data with
  | [] => none
  | cs => parseDigits cs 0

/-- The union loop of `get_computed_member` (`util.rs` lines 277-301),
parameterized by the recursive call: successes are collected; the first
failure contributes a freshly inserted `undefined` member; the failure
count is tracked. -/
def gcmUnionScan (recur : Arena → Nat → Arena × Except HmErr Nat) (keyIdx : Nat) :
    Arena → List Nat → Nat → List Nat → Arena × (List Nat × Nat)
  | a, [], undefinedCount, resultTypes => (a, (resultTypes, undefinedCount))
  | a, idx :: rest, undefinedCount, resultTypes =>
      match recur a idx with
      | (a1, .ok t) => gcmUnionScan recur keyIdx a1 rest undefinedCount (resultTypes ++ [t])
      | (a1, .error _) =>
          if undefinedCount == 0 then
            let (a2, u) := newConstructor a1 "undefined" []
            gcmUnionScan recur keyIdx a2 rest (undefinedCount + 1) (resultTypes ++ [u])
          else gcmUnionScan recur keyIdx a1 rest (undefinedCount + 1) resultTypes

/-- `get_computed_member` (`util.rs` lines 229-323), fuel-indexed:
dispatch on the receiver — objects delegate to `get_prop`; `@@tuple`
constructors handle numeric-literal keys (bounds-checked), string-literal
keys (delegated to `get_prop`, whose Array-interface lookup is an
unimplemented TODO in the source) and the `number` keyword (union of the
elements with `undefined`); `@@union` constructors distribute; non-`@@`
constructors resolve through the scheme table; everything else is an
error. -/
def getComputedMember : Nat → Arena → HmCtx → Nat → Nat → Arena × Except HmErr Nat
  | 0, a, _, _, _ => (a, .error (.fatal "recursion limit"))
  | fuel + 1, a, ctx, objIdx, keyIdx =>
      match aget a objIdx, aget a keyIdx with
      | some objKind, some keyKind =>
          match objKind with
          | .object _ => getProp a ctx objIdx keyIdx
          | .ctorK name types =>
              if name == "@@tuple" then
                match keyKind with
                | .literal (.num value) =>
                    match parseNat value with
                    | none => (a, .error (.inferenceError (value ++ " isn't a valid index")))
                    | some index =>
                        if index < types.length then (a, .ok (types.getD index 0))
                        else
                          (a, .error (.inferenceError
                            (toString index ++ " was outside the bounds 0.."
                              ++ toString types.length ++ " of the tuple")))
                | .literal (.str _) => getProp a ctx objIdx keyIdx
                | .ctorK keyName _keyArgs =>
                    if keyName == "number" then
                      let (a1, undef) := newConstructor a "undefined" []
                      let (a2, u) := newUnionType a1 (types ++ [undef])
                      (a2, .ok u)
                    else
                      (a, .error (.inferenceError
                        "Can only access tuple properties with a number"))
                | _ =>
                    (a, .error (.inferenceError
                      "Can only access tuple properties with a number"))
              else if name == "@@union" then
                let (a1, (resultTypes, undefinedCount)) :=
                  gcmUnionScan (fun ar i => getComputedMember fuel ar ctx i keyIdx)
                    keyIdx a types 0 []
                if undefinedCount == types.length then
                  (a1, .error (.inferenceError "Couldn't find property on object"))
                else
                  let (a2, u) := newUnionType a1 resultTypes
                  (a2, .ok u)
              else if !(name.startsWith "@@") then
                match schemeLookup ctx name with
                | some scheme =>
                    match expandAlias a ctx name scheme types with
                    | (a1, .error e) => (a1, .error e)
                    | (a1, .ok objIdx2) => getComputedMember fuel a1 ctx objIdx2 keyIdx
                | none =>
                    (a, .error (.inferenceError ("Can't find type alias for " ++ name)))
              else
                (a, .error (.inferenceError "Can only access properties on objects/tuples"))
          | _ =>
              (a, .error (.inferenceError "Can only access properties on objects/tuples"))
      | _, _ => (a, .error (.fatal "invalid arena index"))

/-- The key-collection loop of `expand_keyof` (`util.rs` lines 197-214):
each `Prop` element allocates a string-literal type of its name (number
keys included, printed as strings); methods and indexers are skipped. -/
def keyofCollect (a : Arena) : List HmObjElem → Arena × List Nat
  | [] => (a, [])
  | e :: rest =>
      match e with
      | .prop name _ _ =>
          let (a1, key) := newLitType a (.str name.text)
          let (a2, keys) := keyofCollect a1 rest
          (a2, key :: keys)
      | _ => keyofCollect a rest

mutual

/-- `expand_type` (`util.rs` lines 153-190), fuel-indexed: prune, then
resolve non-built-in constructors through the scheme table (keyword names
resolve to themselves), expand `@@index` and `@@keyof` utilities, and
return every other type unchanged.  The prune step runs with fuel one
more than the arena size: an instance chain longer than the arena
implies a cycle, on which the source diverges. -/
def expandType : Nat → Arena → HmCtx → Nat → Arena × Except HmErr Nat
  | 0, a, _, _ => (a, .error (.fatal "recursion limit"))
  | fuel + 1, a0, ctx, t0 =>
      match prune (a0.length + 1) a0 t0 with
      | none => (a0, .error (.fatal "prune diverged"))
      | some (a, t) =>
          match aget a t with
          | none => (a, .error (.fatal "invalid arena index"))
          | some k =>
              match k with
              | .ctorK name types =>
                  if !(name.startsWith "@@") then
                    match schemeLookup ctx name with
                    | some scheme => expandAlias a ctx name scheme types
                    | none =>
                        if keywordNames.contains name then (a, .ok t)
                        else
                          (a, .error (.inferenceError
                            ("Can't find type alias for " ++ name)))
                  else (a, .ok t)
              | .utility name types =>
                  if name == "@@index" then
                    getComputedMember fuel a ctx (types.getD 0 0) (types.getD 1 0)
                  else if name == "@@keyof" then
                    expandKeyof fuel a ctx (types.getD 0 0)
                  else
                    (a, .error (.inferenceError ("Can't find utility type for " ++ name)))
              | _ => (a, .ok t)

/-- `expand_keyof` (`util.rs` lines 192-227), fuel-indexed: expand the
operand; on an `Object`, allocate a string-literal type per named
property (methods and indexers contribute nothing — the source carries a
TODO for indexers), then `never` for no keys, the single literal for one,
or a `@@union` of the literals; on anything else, an error. -/
def expandKeyof : Nat → Arena → HmCtx → Nat → Arena × Except HmErr Nat
  | 0, a, _, _ => (a, .error (.fatal "recursion limit"))
  | fuel + 1, a, ctx, t =>
      match expandType fuel a ctx t with
      | (a1, .error e) => (a1, .error e)
      | (a1, .ok obj) =>
          match aget a1 obj with
          | none => (a1, .error (.fatal "invalid arena index"))
          | some k =>
              match k with
              | .object props =>
                  let (a2, keys) := keyofCollect a1 props
                  match keys with
                  | [] =>
                      let (a3, n) := newConstructor a2 "never" []
                      (a3, .ok n)
                  | [single] => (a2, .ok single)
                  | _ =>
                      let (a3, u) := newUnionType a2 keys
                      (a3, .ok u)
              | other =>
                  (a1, .error (.inferenceError (hmShow other ++ " isn't an object")))

end

/-- A default `escalier_hm` context: empty scheme table, an
instantiation that returns the scheme body unchanged, and a unifier that
always succeeds.  The concrete evaluations below never reach the
collaborators. -/
def hmCtx0 : HmCtx where
  schemes := []
  instantiateScheme := fun a t _ => (a, t)
  unifyFn := fun a _ _ => (a, .ok ())

/-- A type kind is pruned when it is an uninstantiated variable or not a
variable at all (the result guarantee stated in `prune`'s doc comment). -/
def isPrunedKind : HmKind → Bool
  | .tvar (some _) => false
  | _ => true

/-- Whether a kind is an object. -/
def isObjKind : HmKind → Bool
  | .object _ => true
  | _ => false

/-- The property names of an object's elements, in order (methods and
indexers excluded), as raw strings. -/
def propKeyNames (props : List HmObjElem) : List String :=
  props.filterMap (fun e =>
    match e with
    | .prop name _ _ => some name.text
    | _ => none)

/-- Whether an object element stops the string-keyed `get_prop` scan
before a later property named `k` can be reached: a method or property
with the same key text, or an indexer (which the scan records). -/
def elemBlocksStrKey (k : String) : HmObjElem → Bool
  | .method name _ _ => name.text == k
  | .index _ _ => true
  | .prop name _ _ => name.text == k

end Escalier

namespace Crochet

/-- Spread expansion of a single argument, as the spec describes the
flattening: a tuple spread contributes its elements, anything else
contributes itself. -/
def expandSpread : Ty → List Ty
  | .rest (.tuple ts) => ts
  | t => [t]

/-- Whether an argument is a spread of a non-tuple operand (the rejected
shape of the flattening loop). -/
def isNonTupleSpread : Ty → Bool
  | .rest (.tuple _) => false
  | .rest _ => true
  | _ => false

end Crochet

namespace Crochet

theorem zip_take_left {α β : Type} (xs : List α) (ys : List β) :
    xs.zip ys = (xs.take ys.length).zip ys := by
  induction xs generalizing ys with
  | nil => simp
  | cons x xs ih =>
      cases ys with
      | nil => simp
      | cons y ys =>
          have h := ih ys
          simp [List.zip] at h ⊢
          exact h

end Crochet

namespace Crochet

/-- C4: counterexample — `unify(Keyword(never), Keyword(number))` does not
succeed with the empty substitution (it is a unification error), even
though `number` is one of the keywords the claim ranges over; the only
keyword `never` unifies with is `null`. -/
theorem unify_never_number_fails :
    unify 1 ctx0 (.keyword .never) (.keyword .number)
      = .error (.uerr "Can't unify never with number") := rfl

/-- C4 (amended): for every fuel and context,
`unify(Keyword(never), Keyword(k))` succeeds (with the empty
substitution) exactly when `k` is `null`; for every other keyword —
including `never` itself — it fails with a unification error. -/
theorem unify_never_keyword (fuel : Nat) (ctx : Ctx) (k : TKeyword) :
    unify (fuel + 1) ctx (.keyword .never) (.keyword k)
      = if k = .null then .ok []
        else .error (.uerr ("Can't unify never with " ++ showKeyword k)) := by
  cases k <;> rfl

/-- C8: counterexample — unifying two `Ref`s with different alias names
hits the `todo!()` in the `Ref ≤ Ref` arm: the run aborts with a panic
instead of resolving both aliases and retrying. -/
theorem unify_ref_ref_diff_names_panics :
    unify 1 ctx0 (.ref "A" none) (.ref "B" none)
      = .error (.fatal
          "not yet implemented: unify(): handle aliases that point to another alias") := rfl

/-- C8 (amended): unifying `Ref(name, args1)` against `Ref(name, args2)`
with equal names zips the type-argument lists and unifies them pointwise,
composing the collected substitutions (and yields the empty substitution
when neither side has arguments); with different names the code panics
(`todo!()`), aborting the run rather than resolving the aliases. -/
theorem unify_ref_ref :
    (∀ (fuel : Nat) (ctx : Ctx) (name : String) (ts1 ts2 : List Ty),
       unify (fuel + 1) ctx (.ref name (some ts1)) (.ref name (some ts2))
         = match unifyPairsCollect (unify fuel ctx) (ts1.zip ts2) with
           | .error e => .error e
           | .ok ss => .ok (composeManySubsWithContext ss)) ∧
    (∀ (fuel : Nat) (ctx : Ctx) (name : String),
       unify (fuel + 1) ctx (.ref name none) (.ref name none) = .ok []) ∧
    (∀ (fuel : Nat) (ctx : Ctx) (n1 n2 : String) (a1 a2 : Option (List Ty)),
       n1 ≠ n2 →
       unify (fuel + 1) ctx (.ref n1 a1) (.ref n2 a2)
         = .error (.fatal
             "not yet implemented: unify(): handle aliases that point to another alias")) := by
  refine ⟨?_, ?_, ?_⟩
  · intro fuel ctx name ts1 ts2
    simp [unify, unifyWith, unifyRefRef]
  · intro fuel ctx name
    simp [unify, unifyWith, unifyRefRef]
  · intro fuel ctx n1 n2 a1 a2 h
    simp [unify, unifyWith, unifyRefRef, h]

/-- C8 witness: the amended theorem applied at concrete inputs — equal
names with empty argument lists unify pointwise to the empty
substitution; equal names without arguments give the empty substitution;
the names `A` and `B` panic. -/
theorem unify_ref_ref_witness :
    (unify 1 ctx0 (.ref "T" (some [])) (.ref "T" (some []))
       = match unifyPairsCollect (unify 0 ctx0) (List.zip [] []) with
         | .error e => .error e
         | .ok ss => .ok (composeManySubsWithContext ss)) ∧
    unify 1 ctx0 (.ref "T" none) (.ref "T" none) = .ok [] ∧
    unify 1 ctx0 (.ref "A" (some [])) (.ref "B" (some []))
      = .error (.fatal
          "not yet implemented: unify(): handle aliases that point to another alias") :=
  ⟨unify_ref_ref.1 0 ctx0 "T" [] [],
   unify_ref_ref.2.1 0 ctx0 "T",
   unify_ref_ref.2.2 0 ctx0 "A" "B" (some []) (some []) (by decide)⟩

end Crochet

namespace Crochet

theorem nontuple_spread_elim (sp : Ty) (h : isNonTupleSpread (.rest sp) = false) :
    ∃ ts, sp = .tuple ts := by
  cases sp <;> first
    | exact ⟨_, rfl⟩
    | simp [isNonTupleSpread] at h

theorem flattenArgs_cons_ok (a : Ty) (rest : List Ty)
    (h : isNonTupleSpread a = false) :
    flattenArgs (a :: rest)
      = match flattenArgs rest with
        | .ok r => .ok (expandSpread a ++ r)
        | .error e => .error e := by
  cases a with
  | rest sp =>
      obtain ⟨ts, rfl⟩ := nontuple_spread_elim sp h
      simp [flattenArgs, expandSpread]
  | _ => simp [flattenArgs, expandSpread]

theorem flattenArgs_all_tuples (args : List Ty)
    (h : ∀ a ∈ args, isNonTupleSpread a = false) :
    flattenArgs args = .ok ((args.map expandSpread).flatten) := by
  induction args with
  | nil => rfl
  | cons a rest ih =>
      have ha := h a (List.mem_cons_self a rest)
      have hrest := ih (fun x hx => h x (List.mem_cons_of_mem a hx))
      rw [flattenArgs_cons_ok a rest ha, hrest]
      simp

theorem flattenArgs_bad_spread (pre : List Ty) (x : Ty) (post : List Ty)
    (hpre : ∀ a ∈ pre, isNonTupleSpread a = false)
    (hx : isNonTupleSpread (.rest x) = true) :
    flattenArgs (pre ++ .rest x :: post)
      = .error (.uerr ("spread of type " ++ showTy x ++ " not allowed")) := by
  induction pre with
  | nil =>
      rw [List.nil_append]
      cases x <;> first
        | rfl
        | simp [isNonTupleSpread] at hx
  | cons a rest ih =>
      have ha := hpre a (List.mem_cons_self a rest)
      have hrest := ih (fun y hy => hpre y (List.mem_cons_of_mem a hy))
      rw [List.cons_append, flattenArgs_cons_ok a _ ha, hrest]

end Crochet

namespace Crochet

/-- C7: counterexample — a spread whose operand is an Array, passed as the
final argument to a lambda whose last parameter is a rest parameter, is
NOT accepted: the flattening loop of the `App ≤ Lam` arm rejects every
spread of a non-tuple operand, arrays included. -/
theorem unify_array_spread_to_rest_fails :
    unify 2 ctx0
      (.app [.rest (.array (.keyword .number))] (.keyword .undefined))
      (.lam [.mk (.rest "xs") (.array (.keyword .number)) false] (.keyword .undefined))
      = .error (.uerr "spread of type number[] not allowed") := rfl

/-- C7 (amended): when unifying an App against a Lam, every spread
argument whose operand is a Tuple is flattened inline into the argument
list; a spread argument whose operand is anything else — an array
included, in any position — makes the arm fail with a
spread-not-allowed error. -/
theorem app_lam_spread_flattening :
    (∀ (args : List Ty), (∀ a ∈ args, isNonTupleSpread a = false) →
       flattenArgs args = .ok ((args.map expandSpread).flatten)) ∧
    (∀ (pre : List Ty) (x : Ty) (post : List Ty),
       (∀ a ∈ pre, isNonTupleSpread a = false) →
       isNonTupleSpread (.rest x) = true →
       flattenArgs (pre ++ .rest x :: post)
         = .error (.uerr ("spread of type " ++ showTy x ++ " not allowed"))) ∧
    (∀ (fuel : Nat) (ctx : Ctx) (args : List Ty) (appRet : Ty)
       (params : List TParam) (lamRet : Ty) (e : Ux),
       flattenArgs args = .error e →
       unify (fuel + 1) ctx (.app args appRet) (.lam params lamRet) = .error e) := by
  refine ⟨flattenArgs_all_tuples, flattenArgs_bad_spread, ?_⟩
  intro fuel ctx args appRet params lamRet e hflat
  show unifyAppLam (unify fuel ctx) args appRet params lamRet = .error e
  unfold unifyAppLam
  rw [hflat]

/-- C7 witness: the amended theorem applied at concrete inputs — a tuple
spread flattens inline; an array spread after one ordinary argument
errors; the error propagates through `unify` on an App-vs-Lam pair. -/
theorem app_lam_spread_flattening_witness :
    flattenArgs [.lit (.num "1"), .rest (.tuple [.lit (.num "2"), .lit (.num "3")])]
      = .ok [.lit (.num "1"), .lit (.num "2"), .lit (.num "3")] ∧
    flattenArgs [.lit (.num "1"), .rest (.array (.keyword .number))]
      = .error (.uerr "spread of type number[] not allowed") ∧
    unify 1 ctx0
      (.app [.lit (.num "1"), .rest (.array (.keyword .number))] (.keyword .undefined))
      (.lam [] (.keyword .undefined))
      = .error (.uerr "spread of type number[] not allowed") := by
  refine ⟨?_, ?_, ?_⟩
  · have h := app_lam_spread_flattening.1
      [.lit (.num "1"), .rest (.tuple [.lit (.num "2"), .lit (.num "3")])]
      (by intro a ha; fin_cases ha <;> rfl)
    simpa using h
  · have h := app_lam_spread_flattening.2.1
      [.lit (.num "1")] (.array (.keyword .number)) []
      (by intro a ha; fin_cases ha; rfl) rfl
    simpa using h
  · exact app_lam_spread_flattening.2.2 0 ctx0
      [.lit (.num "1"), .rest (.array (.keyword .number))] (.keyword .undefined)
      [] (.keyword .undefined) _ rfl

end Crochet

namespace Crochet

/-- C2: when unifying an App against a Lam, the required lower bound on
the argument count is `|params| - optional_count - 1` when the lambda has
a rest parameter and `|params| - optional_count - 0` otherwise;
unification fails with the not-enough-arguments error whenever the
flattened argument count is below this bound; and for a lambda without a
rest parameter the flattened arguments are matched positionally with the
parameters, arguments beyond `|params|` being silently ignored (the
result equals the result on the truncated argument list), with return
types unified afterwards as usual. -/
theorem app_lam_arity :
    (∀ (params : List TParam),
       paramCountLowBound params
         = params.length - countOptional params
             - (if (maybeRestParam params).isSome then 1 else 0)) ∧
    (∀ (fuel : Nat) (ctx : Ctx) (args : List Ty) (appRet : Ty)
       (params : List TParam) (lamRet : Ty) (flat : List Ty),
       flattenArgs args = .ok flat →
       flat.length < paramCountLowBound params →
       unify (fuel + 1) ctx (.app args appRet) (.lam params lamRet)
         = .error (.uerr "Not enough args provided")) ∧
    (∀ (fuel : Nat) (ctx : Ctx) (args : List Ty) (appRet : Ty)
       (params : List TParam) (lamRet : Ty) (flat : List Ty),
       maybeRestParam params = none →
       flattenArgs args = .ok flat →
       paramCountLowBound params ≤ flat.length →
       unify (fuel + 1) ctx (.app args appRet) (.lam params lamRet)
         = unifySeqRet (unify fuel ctx)
             ((flat.take params.length).zip (params.map TParam.t)) appRet lamRet) := by
  refine ⟨?_, ?_, ?_⟩
  · intro params
    unfold paramCountLowBound
    cases maybeRestParam params <;> simp
  · intro fuel ctx args appRet params lamRet flat hflat hlt
    show unifyAppLam (unify fuel ctx) args appRet params lamRet = _
    unfold unifyAppLam
    rw [hflat]
    simp [hlt]
  · intro fuel ctx args appRet params lamRet flat hrest hflat hge
    show unifyAppLam (unify fuel ctx) args appRet params lamRet = _
    unfold unifyAppLam
    rw [hflat]
    simp only [Nat.not_lt.mpr hge, if_false, hrest, ge_iff_le, hge, if_true]
    rw [zip_take_left flat (params.map TParam.t), List.length_map]

/-- C2 witness: the theorem applied at concrete inputs — the bound of a
two-parameter lambda with one optional parameter and no rest is 1;
calling a one-required-parameter lambda with no arguments fails with the
not-enough-arguments error; calling it with three literal arguments
behaves as the call with the surplus two dropped. -/
theorem app_lam_arity_witness :
    paramCountLowBound
        [.mk (.ident "a") (.keyword .number) false,
         .mk (.ident "b") (.keyword .number) true]
      = 2 - 1 - 0 ∧
    unify 1 ctx0 (.app [] (.keyword .undefined))
      (.lam [.mk (.ident "x") (.keyword .number) false] (.keyword .undefined))
      = .error (.uerr "Not enough args provided") ∧
    unify 1 ctx0
      (.app [.lit (.num "1"), .lit (.num "2"), .lit (.num "3")] (.keyword .undefined))
      (.lam [.mk (.ident "x") (.keyword .number) false] (.keyword .undefined))
      = unifySeqRet (unify 0 ctx0)
          ((List.take 1 [.lit (.num "1"), .lit (.num "2"), .lit (.num "3")]).zip
            ([TParam.mk (.ident "x") (.keyword .number) false].map TParam.t))
          (.keyword .undefined) (.keyword .undefined) := by
  refine ⟨?_, ?_, ?_⟩
  · have h := app_lam_arity.1
      [.mk (.ident "a") (.keyword .number) false,
       .mk (.ident "b") (.keyword .number) true]
    simpa using h
  · exact app_lam_arity.2.1 0 ctx0 [] (.keyword .undefined)
      [.mk (.ident "x") (.keyword .number) false] (.keyword .undefined) [] rfl
      (by decide)
  · exact app_lam_arity.2.2 0 ctx0 _ (.keyword .undefined)
      [.mk (.ident "x") (.keyword .number) false] (.keyword .undefined)
      [.lit (.num "1"), .lit (.num "2"), .lit (.num "3")] rfl rfl (by decide)

end Crochet

namespace Crochet

/-- C1: counterexample — for `t = Var v` itself, `v` occurs free in `t`
and `t` is not a Union containing `v` as a direct alternative, yet
`bind(v, t)` does not return an InfiniteType error: the trivial-binding
arm returns the empty substitution first. -/
theorem bind_self_var_not_infinite :
    occursCheck 0 (.var 0 none) = true ∧
    unionDirectAlts 0 (.var 0 none) = none ∧
    bind 1 ctx0 0 none (.var 0 none) .subType = .ok [] := ⟨rfl, rfl, rfl⟩

/-- C1 (amended): for every type variable `v` and type `t` in which `v`
occurs free, if `t` is not the variable `v` itself and `t` is not a Union
containing `v` as a direct alternative, then `bind(v, t)` returns an
InfiniteType error; if `t` is a Union containing `v` as a direct
alternative, `bind` drops those alternatives, deduplicates the remainder,
collapses to the single remaining type when only one remains, and
succeeds with the substitution mapping `v` to that result. -/
theorem bind_occurs_check (fuel : Nat) (ctx : Ctx) (id : Nat)
    (c : Option Ty) (t : Ty) (rel : Rel)
    (hocc : occursCheck id t = true) :
    (isVarWithId id t = false → unionDirectAlts id t = none →
       bind fuel ctx id c t rel = .error (.uerr "InfiniteType")) ∧
    (∀ without, unionDirectAlts id t = some without →
       bind fuel ctx id c t rel = .ok [(id, collapseUnion (dedupTys without))]) := by
  constructor
  · intro hvar halts
    show bindWith (unify fuel ctx) id c t rel = _
    unfold bindWith
    rw [hvar, hocc]
    simp [bindOccurs, halts]
  · intro without halts
    have hvar : isVarWithId id t = false := by
      cases t <;> simp [unionDirectAlts] at halts
      simp [isVarWithId]
    show bindWith (unify fuel ctx) id c t rel = _
    unfold bindWith
    rw [hvar, hocc]
    simp [bindOccurs, halts]

/-- C1 witness: the amended theorem applied at concrete inputs — binding
`t0` to `Array<t0>` is an InfiniteType error; binding `t0` to the union
`t0 | number | number` drops the variable, dedupes, collapses, and maps
`t0` to `number`. -/
theorem bind_occurs_check_witness :
    bind 1 ctx0 0 none (.array (.var 0 none)) .subType
      = .error (.uerr "InfiniteType") ∧
    bind 1 ctx0 0 none
      (.union [.var 0 none, .keyword .number, .keyword .number]) .subType
      = .ok [(0, .keyword .number)] := by
  constructor
  · exact (bind_occurs_check 1 ctx0 0 none (.array (.var 0 none)) .subType rfl).1
      rfl rfl
  · have h := (bind_occurs_check 1 ctx0 0 none
      (.union [.var 0 none, .keyword .number, .keyword .number]) .subType rfl).2
      [.keyword .number, .keyword .number] rfl
    have hval : collapseUnion (dedupTys [Ty.keyword .number, Ty.keyword .number])
        = Ty.keyword .number := by
      simp [dedupTys, tyBeq, collapseUnion]
    rw [hval] at h
    exact h

end Crochet

namespace Crochet

theorem objElemScan_all_fail (recur : Ty → Ty → Except Ux Subst)
    (name : String) (o2 m2 : Bool) (t2 : Ty) (elems1 : List TObjElem)
    (h : ∀ e1 ∈ elems1, ∀ n1 o1 m1 t1, e1 = TObjElem.prop n1 o1 m1 t1 → n1 = name →
       ∃ msg, recur (getPropertyType o1 t1) (getPropertyType o2 t2) = .error msg) :
    ∀ b ss, (∃ m, objElemScan recur (.prop name o2 m2 t2) elems1 b ss
               = .error (.fatal m)) ∨
      objElemScan recur (.prop name o2 m2 t2) elems1 b ss = .ok (b, ss) := by
  induction elems1 with
  | nil => intro b ss; exact Or.inr rfl
  | cons e1 rest ih =>
      intro b ss
      have hrest := ih (fun x hx => h x (List.mem_cons_of_mem e1 hx))
      cases e1 with
      | call ps r tp => simpa [objElemScan] using hrest b ss
      | ctor ps r tp => simpa [objElemScan] using hrest b ss
      | index k tt => simpa [objElemScan] using hrest b ss
      | prop n1 o1 m1 t1 =>
          by_cases hn : n1 = name
          · obtain ⟨msg, hmsg⟩ := h _ (List.mem_cons_self _ _) n1 o1 m1 t1 rfl hn
            cases msg with
            | fatal m =>
                left
                refine ⟨m, ?_⟩
                simp only [objElemScan, beq_iff_eq, hn, if_true, hmsg]
            | uerr m =>
                have := hrest b ss
                simpa [objElemScan, beq_iff_eq, hn, hmsg] using this
          · have := hrest b ss
            simpa [objElemScan, beq_iff_eq, hn] using this

theorem objElemScan_all_uerr (recur : Ty → Ty → Except Ux Subst)
    (name : String) (o2 m2 : Bool) (t2 : Ty) (elems1 : List TObjElem)
    (h : ∀ e1 ∈ elems1, ∀ n1 o1 m1 t1, e1 = TObjElem.prop n1 o1 m1 t1 → n1 = name →
       ∃ msg, recur (getPropertyType o1 t1) (getPropertyType o2 t2)
                = .error (.uerr msg)) :
    ∀ b ss, objElemScan recur (.prop name o2 m2 t2) elems1 b ss = .ok (b, ss) := by
  induction elems1 with
  | nil => intro b ss; rfl
  | cons e1 rest ih =>
      intro b ss
      have hrest := ih (fun x hx => h x (List.mem_cons_of_mem e1 hx))
      cases e1 with
      | call ps r tp => simpa [objElemScan] using hrest b ss
      | ctor ps r tp => simpa [objElemScan] using hrest b ss
      | index k tt => simpa [objElemScan] using hrest b ss
      | prop n1 o1 m1 t1 =>
          by_cases hn : n1 = name
          · obtain ⟨msg, hmsg⟩ := h _ (List.mem_cons_self _ _) n1 o1 m1 t1 rfl hn
            have := hrest b ss
            simpa [objElemScan, beq_iff_eq, hn, hmsg] using this
          · have := hrest b ss
            simpa [objElemScan, beq_iff_eq, hn] using this

theorem unifyObjElem_required_fail (recur : Ty → Ty → Except Ux Subst)
    (name : String) (m2 : Bool) (t2 : Ty) (elems1 : List TObjElem)
    (h : ∀ e1 ∈ elems1, ∀ n1 o1 m1 t1, e1 = TObjElem.prop n1 o1 m1 t1 → n1 = name →
       ∃ msg, recur (getPropertyType o1 t1) (getPropertyType false t2) = .error msg) :
    ∃ e, unifyObjElem recur (.prop name false m2 t2) elems1 = .error e := by
  rcases objElemScan_all_fail recur name false m2 t2 elems1 h false [] with ⟨m, hm⟩ | hok
  · exact ⟨.fatal m, by simp [unifyObjElem, hm]⟩
  · exact ⟨.uerr "Unification failure", by simp [unifyObjElem, hok]⟩

theorem unifyObjElems_mem_fail (recur : Ty → Ty → Except Ux Subst)
    (elems1 : List TObjElem) (elems2 : List TObjElem) (e2 : TObjElem)
    (he : e2 ∈ elems2) (hf : ∃ e, unifyObjElem recur e2 elems1 = .error e) :
    ∃ e, unifyObjElems recur elems1 elems2 = .error e := by
  induction elems2 with
  | nil => exact absurd he (List.not_mem_nil e2)
  | cons h2 rest ih =>
      cases hres : unifyObjElem recur h2 elems1 with
      | error e => exact ⟨e, by simp [unifyObjElems, hres]⟩
      | ok s =>
          rcases List.mem_cons.mp he with rfl | hmem
          · obtain ⟨e, hfe⟩ := hf
            rw [hres] at hfe
            exact absurd hfe (by simp)
          · obtain ⟨e, he2⟩ := ih hmem
            exact ⟨e, by simp [unifyObjElems, hres, he2]⟩

theorem objElemScan_append_skip (recur : Ty → Ty → Except Ux Subst)
    (e2 : TObjElem) (name : String) (o m : Bool) (t : Ty)
    (h : ∀ n2 o2 m2 t2, e2 = TObjElem.prop n2 o2 m2 t2 → n2 ≠ name)
    (elems1 : List TObjElem) :
    ∀ b ss, objElemScan recur e2 (elems1 ++ [.prop name o m t]) b ss
      = objElemScan recur e2 elems1 b ss := by
  induction elems1 with
  | nil =>
      intro b ss
      rw [List.nil_append]
      cases e2 with
      | prop n2 o2 m2 t2 =>
          have hne : (name == n2) = false :=
            beq_eq_false_iff_ne.mpr (fun hh => h n2 o2 m2 t2 rfl hh.symm)
          simp [objElemScan, hne]
      | call ps r tp => rfl
      | ctor ps r tp => rfl
      | index k tt => rfl
  | cons e1 rest ih =>
      intro b ss
      rw [List.cons_append]
      cases e1 with
      | call ps r tp =>
          cases e2 with
          | call ps2 r2 tp2 => rfl
          | prop n2 o2 m2 t2 => simpa [objElemScan] using ih b ss
          | ctor ps2 r2 tp2 => simpa [objElemScan] using ih b ss
          | index k2 tt2 => simpa [objElemScan] using ih b ss
      | ctor ps r tp =>
          cases e2 <;> simpa [objElemScan] using ih b ss
      | index k tt =>
          cases e2 <;> simpa [objElemScan] using ih b ss
      | prop n1 o1 m1 t1 =>
          cases e2 with
          | call ps2 r2 tp2 => simpa [objElemScan] using ih b ss
          | ctor ps2 r2 tp2 => simpa [objElemScan] using ih b ss
          | index k2 tt2 => simpa [objElemScan] using ih b ss
          | prop n2 o2 m2 t2 =>
              by_cases hn : (n1 == n2) = true
              · simp only [objElemScan, hn, if_true]
                cases hres : recur (getPropertyType o1 t1) (getPropertyType o2 t2) with
                | ok s => exact ih _ _
                | error e =>
                    cases e with
                    | fatal msg => rfl
                    | uerr msg => exact ih _ _
              · simp only [objElemScan, eq_false_of_ne_true hn, if_false]
                exact ih _ _

theorem unifyObjElem_append_skip (recur : Ty → Ty → Except Ux Subst)
    (e2 : TObjElem) (name : String) (o m : Bool) (t : Ty)
    (h : ∀ n2 o2 m2 t2, e2 = TObjElem.prop n2 o2 m2 t2 → n2 ≠ name)
    (elems1 : List TObjElem) :
    unifyObjElem recur e2 (elems1 ++ [.prop name o m t])
      = unifyObjElem recur e2 elems1 := by
  unfold unifyObjElem
  rw [objElemScan_append_skip recur e2 name o m t h elems1]

theorem unifyObjElems_append_skip (recur : Ty → Ty → Except Ux Subst)
    (name : String) (o m : Bool) (t : Ty) (elems1 : List TObjElem)
    (elems2 : List TObjElem)
    (h : ∀ e2 ∈ elems2, ∀ n2 o2 m2 t2, e2 = TObjElem.prop n2 o2 m2 t2 → n2 ≠ name) :
    unifyObjElems recur (elems1 ++ [.prop name o m t]) elems2
      = unifyObjElems recur elems1 elems2 := by
  induction elems2 with
  | nil => rfl
  | cons e2 rest ih =>
      have h2 := h e2 (List.mem_cons_self _ _)
      have hrest := ih (fun x hx => h x (List.mem_cons_of_mem e2 hx))
      simp only [unifyObjElems,
        unifyObjElem_append_skip recur e2 name o m t h2 elems1, hrest]

end Crochet

namespace Crochet

/-- C3: when unifying `Object t1` as a subtype of `Object t2`, a required
Prop of `t2` with no same-named type-compatible Prop in `t1` makes
unification fail; an optional Prop of `t2` with no match in `t1`
contributes the empty substitution (so unification continues with the
remaining elements); and a property of `t1` whose name appears on no Prop
of `t2` never changes the result — extra properties in the subtype cannot
cause failure. -/
theorem obj_obj_props :
    (∀ (fuel : Nat) (ctx : Ctx) (elems1 elems2 : List TObjElem)
       (name : String) (m2 : Bool) (t2 : Ty),
       (TObjElem.prop name false m2 t2) ∈ elems2 →
       (∀ e1 ∈ elems1, ∀ n1 o1 m1 t1, e1 = TObjElem.prop n1 o1 m1 t1 → n1 = name →
          ∃ msg, unify fuel ctx (getPropertyType o1 t1) (getPropertyType false t2)
                   = .error msg) →
       ∃ e, unify (fuel + 1) ctx (.obj elems1) (.obj elems2) = .error e) ∧
    (∀ (fuel : Nat) (ctx : Ctx) (elems1 : List TObjElem)
       (name : String) (m2 : Bool) (t2 : Ty),
       (∀ e1 ∈ elems1, ∀ n1 o1 m1 t1, e1 = TObjElem.prop n1 o1 m1 t1 → n1 = name →
          ∃ msg, unify fuel ctx (getPropertyType o1 t1) (getPropertyType true t2)
                   = .error (.uerr msg)) →
       unifyObjElem (unify fuel ctx) (.prop name true m2 t2) elems1 = .ok []) ∧
    (∀ (fuel : Nat) (ctx : Ctx) (elems1 elems2 : List TObjElem)
       (name : String) (o m : Bool) (t : Ty),
       (∀ e2 ∈ elems2, ∀ n2 o2 m2 t2, e2 = TObjElem.prop n2 o2 m2 t2 → n2 ≠ name) →
       unify (fuel + 1) ctx (.obj (elems1 ++ [.prop name o m t])) (.obj elems2)
         = unify (fuel + 1) ctx (.obj elems1) (.obj elems2)) := by
  refine ⟨?_, ?_, ?_⟩
  · intro fuel ctx elems1 elems2 name m2 t2 hmem hno
    have hfail := unifyObjElem_required_fail (unify fuel ctx) name m2 t2 elems1 hno
    obtain ⟨e, he⟩ :=
      unifyObjElems_mem_fail (unify fuel ctx) elems1 elems2 _ hmem hfail
    refine ⟨e, ?_⟩
    show unifyObjObj (unify fuel ctx) elems1 elems2 = _
    simp [unifyObjObj, he]
  · intro fuel ctx elems1 name m2 t2 hno
    have hscan := objElemScan_all_uerr (unify fuel ctx) name true m2 t2 elems1 hno
    simp [unifyObjElem, hscan false []]
  · intro fuel ctx elems1 elems2 name o m t hnames
    show unifyObjObj (unify fuel ctx) (elems1 ++ [.prop name o m t]) elems2
      = unifyObjObj (unify fuel ctx) elems1 elems2
    unfold unifyObjObj
    rw [unifyObjElems_append_skip (unify fuel ctx) name o m t elems1 elems2 hnames]

/-- C3 witness: the theorem applied at concrete inputs — a supertype
requiring `b: string` rejects an empty object; an optional `b?: string`
with no match contributes the empty substitution; appending an extra
property `c` to the subtype leaves the result of a successful
`{a: 5} ≤ {a: number}` unification unchanged. -/
theorem obj_obj_props_witness :
    (∃ e, unify 1 ctx0 (.obj []) (.obj [.prop "b" false false (.keyword .string)])
            = .error e) ∧
    unifyObjElem (unify 1 ctx0) (.prop "b" true false (.keyword .string)) [] = .ok [] ∧
    unify 2 ctx0
      (.obj ([.prop "a" false false (.lit (.num "5"))]
         ++ [.prop "c" false false (.keyword .boolean)]))
      (.obj [.prop "a" false false (.keyword .number)])
      = unify 2 ctx0 (.obj [.prop "a" false false (.lit (.num "5"))])
          (.obj [.prop "a" false false (.keyword .number)]) := by
  refine ⟨?_, ?_, ?_⟩
  · exact obj_obj_props.1 0 ctx0 [] [.prop "b" false false (.keyword .string)]
      "b" false (.keyword .string) (List.mem_cons_self _ _)
      (fun e1 he1 => absurd he1 (List.not_mem_nil e1))
  · exact obj_obj_props.2.1 1 ctx0 [] "b" false (.keyword .string)
      (fun e1 he1 => absurd he1 (List.not_mem_nil e1))
  · exact obj_obj_props.2.2 1 ctx0 [.prop "a" false false (.lit (.num "5"))]
      [.prop "a" false false (.keyword .number)] "c" false false (.keyword .boolean)
      (by
        intro e2 he2 n2 o2 m2 t2 heq
        rcases List.mem_singleton.mp he2 with rfl
        cases heq
        decide)

end Crochet

namespace Escalier

theorem aget_aset_ne (a : Arena) (i j : Nat) (k : HmKind) (h : i ≠ j) :
    aget (aset a i k) j = aget a j :=
  List.get?_set_ne k a h

theorem aget_aset_self (a : Arena) (i : Nat) (k k0 : HmKind)
    (h : aget a i = some k0) :
    aget (aset a i k) i = some k := by
  show (a.set i k).get? i = some k
  rw [List.get?_set_eq]
  show (fun _ => k) <$> aget a i = some k
  rw [h]
  rfl

theorem prune_keeps_instantiated (fuel : Nat) :
    ∀ (a : Arena) (v : Nat) (a1 : Arena) (r : Nat),
      prune fuel a v = some (a1, r) →
      ∀ i j, aget a i = some (.tvar (some j)) →
        ∃ j2, aget a1 i = some (.tvar (some j2)) := by
  induction fuel with
  | zero => intro a v a1 r h; simp [prune] at h
  | succ n ih =>
      intro a v a1 r h i j hij
      rw [prune] at h
      cases hv : aget a v with
      | none => simp [hv] at h
      | some k =>
          cases k with
          | tvar inst =>
              cases inst with
              | none =>
                  simp only [hv, Option.some.injEq, Prod.mk.injEq] at h
                  obtain ⟨rfl, rfl⟩ := h
                  exact ⟨j, hij⟩
              | some v2 =>
                  simp only [hv] at h
                  cases hrec : prune n a v2 with
                  | none => simp [hrec] at h
                  | some p =>
                      obtain ⟨a2, value⟩ := p
                      simp only [hrec] at h
                      obtain ⟨j2, hj2⟩ := ih a v2 a2 value hrec i j hij
                      cases hv2 : aget a2 v with
                      | none => simp [hv2] at h
                      | some k2 =>
                          simp only [hv2] at h
                          cases k2 with
                          | tvar inst2 =>
                              simp only [Option.some.injEq, Prod.mk.injEq] at h
                              obtain ⟨rfl, rfl⟩ := h
                              by_cases hiv : i = v
                              · subst hiv
                                exact ⟨value,
                                  aget_aset_self a2 i (.tvar (some value)) _ hv2⟩
                              · refine ⟨j2, ?_⟩
                                rw [aget_aset_ne a2 v i _ (fun hh => hiv hh.symm)]
                                exact hj2
                          | literal l =>
                              simp only [Option.some.injEq, Prod.mk.injEq] at h
                              obtain ⟨rfl, rfl⟩ := h
                              exact ⟨j2, hj2⟩
                          | object props =>
                              simp only [Option.some.injEq, Prod.mk.injEq] at h
                              obtain ⟨rfl, rfl⟩ := h
                              exact ⟨j2, hj2⟩
                          | restK arg =>
                              simp only [Option.some.injEq, Prod.mk.injEq] at h
                              obtain ⟨rfl, rfl⟩ := h
                              exact ⟨j2, hj2⟩
                          | func ps rt =>
                              simp only [Option.some.injEq, Prod.mk.injEq] at h
                              obtain ⟨rfl, rfl⟩ := h
                              exact ⟨j2, hj2⟩
                          | ctorK nm ts =>
                              simp only [Option.some.injEq, Prod.mk.injEq] at h
                              obtain ⟨rfl, rfl⟩ := h
                              exact ⟨j2, hj2⟩
                          | utility nm ts =>
                              simp only [Option.some.injEq, Prod.mk.injEq] at h
                              obtain ⟨rfl, rfl⟩ := h
                              exact ⟨j2, hj2⟩
          | literal l =>
              simp only [hv, Option.some.injEq, Prod.mk.injEq] at h
              obtain ⟨rfl, rfl⟩ := h
              exact ⟨j, hij⟩
          | object props =>
              simp only [hv, Option.some.injEq, Prod.mk.injEq] at h
              obtain ⟨rfl, rfl⟩ := h
              exact ⟨j, hij⟩
          | restK arg =>
              simp only [hv, Option.some.injEq, Prod.mk.injEq] at h
              obtain ⟨rfl, rfl⟩ := h
              exact ⟨j, hij⟩
          | func ps rt =>
              simp only [hv, Option.some.injEq, Prod.mk.injEq] at h
              obtain ⟨rfl, rfl⟩ := h
              exact ⟨j, hij⟩
          | ctorK nm ts =>
              simp only [hv, Option.some.injEq, Prod.mk.injEq] at h
              obtain ⟨rfl, rfl⟩ := h
              exact ⟨j, hij⟩
          | utility nm ts =>
              simp only [hv, Option.some.injEq, Prod.mk.injEq] at h
              obtain ⟨rfl, rfl⟩ := h
              exact ⟨j, hij⟩

theorem prune_of_pruned (n : Nat) (a : Arena) (r : Nat) (k : HmKind)
    (hk : aget a r = some k) (hp : isPrunedKind k = true) :
    prune (n + 1) a r = some (a, r) := by
  rw [prune, hk]
  cases k with
  | tvar inst =>
      cases inst with
      | none => rfl
      | some v => simp [isPrunedKind] at hp
  | literal l => rfl
  | object props => rfl
  | restK arg => rfl
  | func ps rt => rfl
  | ctorK nm ts => rfl
  | utility nm ts => rfl

end Escalier

namespace Escalier

/-- C10: whenever `prune(arena, t)` returns (it panics on an invalid
index and diverges on a cyclic instance chain, both modelled by `none`),
the type stored at the returned index is either an uninstantiated type
variable or a non-variable type, and prune is idempotent: pruning the
returned index in the returned arena yields the same arena and index. -/
theorem prune_result (fuel : Nat) :
    ∀ (a : Arena) (t : Nat) (a2 : Arena) (r : Nat),
      prune fuel a t = some (a2, r) →
      (∃ k, aget a2 r = some k ∧ isPrunedKind k = true) ∧
      prune fuel a2 r = some (a2, r) := by
  induction fuel with
  | zero => intro a t a2 r h; simp [prune] at h
  | succ n ih =>
      intro a t a2 r h
      have hstep : ∀ k, aget a2 r = some k → isPrunedKind k = true →
          (∃ k2, aget a2 r = some k2 ∧ isPrunedKind k2 = true) ∧
          prune (n + 1) a2 r = some (a2, r) := by
        intro k hk hp
        exact ⟨⟨k, hk, hp⟩, prune_of_pruned n a2 r k hk hp⟩
      rw [prune] at h
      cases hv : aget a t with
      | none => simp [hv] at h
      | some k =>
          cases k with
          | tvar inst =>
              cases inst with
              | none =>
                  simp only [hv, Option.some.injEq, Prod.mk.injEq] at h
                  obtain ⟨rfl, rfl⟩ := h
                  exact hstep (.tvar none) hv rfl
              | some v2 =>
                  simp only [hv] at h
                  cases hrec : prune n a v2 with
                  | none => simp [hrec] at h
                  | some p =>
                      obtain ⟨a1, value⟩ := p
                      simp only [hrec] at h
                      obtain ⟨⟨kv, hkv, hkvp⟩, _⟩ := ih a v2 a1 value hrec
                      cases hv2 : aget a1 t with
                      | none => simp [hv2] at h
                      | some k2 =>
                          simp only [hv2] at h
                          cases k2 with
                          | tvar inst2 =>
                              simp only [Option.some.injEq, Prod.mk.injEq] at h
                              obtain ⟨rfl, rfl⟩ := h
                              have hvt : value ≠ t := by
                                intro hh
                                subst hh
                                obtain ⟨j2, hj2⟩ :=
                                  prune_keeps_instantiated n a v2 a1 value hrec
                                    value v2 hv
                                rw [hj2] at hkv
                                cases hkv
                                simp [isPrunedKind] at hkvp
                              have hget : aget (aset a1 t (.tvar (some value))) value
                                  = some kv := by
                                rw [aget_aset_ne a1 t value _ (fun hh => hvt hh.symm)]
                                exact hkv
                              exact hstep kv hget hkvp
                          | literal l =>
                              simp only [Option.some.injEq, Prod.mk.injEq] at h
                              obtain ⟨rfl, rfl⟩ := h
                              exact hstep (.literal l) hv2 rfl
                          | object props =>
                              simp only [Option.some.injEq, Prod.mk.injEq] at h
                              obtain ⟨rfl, rfl⟩ := h
                              exact hstep (.object props) hv2 rfl
                          | restK arg =>
                              simp only [Option.some.injEq, Prod.mk.injEq] at h
                              obtain ⟨rfl, rfl⟩ := h
                              exact hstep (.restK arg) hv2 rfl
                          | func ps rt =>
                              simp only [Option.some.injEq, Prod.mk.injEq] at h
                              obtain ⟨rfl, rfl⟩ := h
                              exact hstep (.func ps rt) hv2 rfl
                          | ctorK nm ts =>
                              simp only [Option.some.injEq, Prod.mk.injEq] at h
                              obtain ⟨rfl, rfl⟩ := h
                              exact hstep (.ctorK nm ts) hv2 rfl
                          | utility nm ts =>
                              simp only [Option.some.injEq, Prod.mk.injEq] at h
                              obtain ⟨rfl, rfl⟩ := h
                              exact hstep (.utility nm ts) hv2 rfl
          | literal l =>
              simp only [hv, Option.some.injEq, Prod.mk.injEq] at h
              obtain ⟨rfl, rfl⟩ := h
              exact hstep (.literal l) hv rfl
          | object props =>
              simp only [hv, Option.some.injEq, Prod.mk.injEq] at h
              obtain ⟨rfl, rfl⟩ := h
              exact hstep (.object props) hv rfl
          | restK arg =>
              simp only [hv, Option.some.injEq, Prod.mk.injEq] at h
              obtain ⟨rfl, rfl⟩ := h
              exact hstep (.restK arg) hv rfl
          | func ps rt =>
              simp only [hv, Option.some.injEq, Prod.mk.injEq] at h
              obtain ⟨rfl, rfl⟩ := h
              exact hstep (.func ps rt) hv rfl
          | ctorK nm ts =>
              simp only [hv, Option.some.injEq, Prod.mk.injEq] at h
              obtain ⟨rfl, rfl⟩ := h
              exact hstep (.ctorK nm ts) hv rfl
          | utility nm ts =>
              simp only [hv, Option.some.injEq, Prod.mk.injEq] at h
              obtain ⟨rfl, rfl⟩ := h
              exact hstep (.utility nm ts) hv rfl

/-- C10 witness: the theorem applied to the concrete arena
`[tvar (instance = 1), tvar (instance = 2), number]`: pruning index 0
returns index 2 (after path compression), whose stored kind is the
non-variable `number`, and pruning index 2 again returns the same arena
and index. -/
theorem prune_result_witness :
    (∃ k, aget [HmKind.tvar (some 2), HmKind.tvar (some 2),
                HmKind.ctorK "number" []] 2
            = some k ∧ isPrunedKind k = true) ∧
    prune 3 [HmKind.tvar (some 2), HmKind.tvar (some 2), HmKind.ctorK "number" []] 2
      = some ([HmKind.tvar (some 2), HmKind.tvar (some 2),
               HmKind.ctorK "number" []], 2) :=
  prune_result 3
    [HmKind.tvar (some 1), HmKind.tvar (some 2), HmKind.ctorK "number" []] 0
    [HmKind.tvar (some 2), HmKind.tvar (some 2), HmKind.ctorK "number" []] 2 rfl

end Escalier

namespace Escalier

theorem aget_append (a b : Arena) (i : Nat) (k : HmKind)
    (h : aget a i = some k) : aget (a ++ b) i = some k := by
  have hlt : i < a.length := by
    by_contra hge
    rw [show aget a i = List.get? a i from rfl,
      List.get?_eq_none.mpr (Nat.le_of_not_lt hge)] at h
    cases h
  show (a ++ b).get? i = some k
  rw [List.get?_append hlt]
  exact h

theorem gpStrScan_skip (undef : Nat) (k : String) (pre : List HmObjElem)
    (hpre : ∀ e ∈ pre, elemBlocksStrKey k e = false) :
    ∀ a mi rest, gpStrScan undef k a mi (pre ++ rest) = gpStrScan undef k a mi rest := by
  induction pre with
  | nil => intro a mi rest; rw [List.nil_append]
  | cons e pr ih =>
      intro a mi rest
      have he := hpre e (List.mem_cons_self _ _)
      have hih := ih (fun x hx => hpre x (List.mem_cons_of_mem e hx))
      cases e with
      | method name params ret =>
          have hne : (name.text == k) = false := by
            simpa [elemBlocksStrKey] using he
          simp [gpStrScan, hne, hih]
      | index key t => simp [elemBlocksStrKey] at he
      | prop name optional t =>
          have hne : (name.text == k) = false := by
            simpa [elemBlocksStrKey] using he
          simp [gpStrScan, hne, hih]

end Escalier

namespace Escalier

/-- C9: on an object type, `get_prop` with the string-literal key `k`,
reaching a property named `k` (no earlier element blocks the scan),
succeeds; when the property is optional with type `T` it returns a fresh
union of `T` and `undefined`, and when it is non-optional it returns `T`
itself (the source inserts one `undefined` node up front in both
cases). -/
theorem get_prop_string_key (a : Arena) (ctx : HmCtx) (objIdx keyIdx : Nat)
    (props pre post : List HmObjElem) (key : HmPropKey) (k : String) (tIdx : Nat)
    (hobj : aget a objIdx = some (.object props))
    (hkey : aget a keyIdx = some (.literal (.str k)))
    (hpre : ∀ e ∈ pre, elemBlocksStrKey k e = false)
    (hname : key.text = k) :
    (props = pre ++ .prop key true tIdx :: post →
       getProp a ctx objIdx keyIdx
         = (a ++ [.ctorK "undefined" [], .ctorK "@@union" [tIdx, a.length]],
            .ok (a.length + 1))) ∧
    (props = pre ++ .prop key false tIdx :: post →
       getProp a ctx objIdx keyIdx = (a ++ [.ctorK "undefined" []], .ok tIdx)) := by
  have hobj' : aget (a ++ [HmKind.ctorK "undefined" []]) objIdx
      = some (.object props) := aget_append a _ objIdx _ hobj
  have hkey' : aget (a ++ [HmKind.ctorK "undefined" []]) keyIdx
      = some (.literal (.str k)) := aget_append a _ keyIdx _ hkey
  have hbeq : (key.text == k) = true := beq_iff_eq.mpr hname
  constructor
  · intro hsplit
    subst hsplit
    unfold getProp
    simp only [newConstructor, ainsert, hobj', hkey',
      gpStrScan_skip ((a : List HmKind).length) k pre hpre]
    simp [gpStrScan, hbeq, newUnionType, ainsert, List.append_assoc]
  · intro hsplit
    subst hsplit
    unfold getProp
    simp only [newConstructor, ainsert, hobj', hkey',
      gpStrScan_skip ((a : List HmKind).length) k pre hpre]
    simp [gpStrScan, hbeq]

/-- C9 witness: the theorem applied to the concrete object
`\x7ba?: number, b: number\x7d` with keys `"a"` and `"b"`: the optional
access returns the fresh `number | undefined` union node, the
non-optional access returns the stored `number` index. -/
theorem get_prop_string_key_witness :
    getProp
      [HmKind.ctorK "number" [],
       HmKind.object [.prop (.stringKey "a") true 0, .prop (.stringKey "b") false 0],
       HmKind.literal (.str "a"), HmKind.literal (.str "b")] hmCtx0 1 2
      = ([HmKind.ctorK "number" [],
          HmKind.object [.prop (.stringKey "a") true 0, .prop (.stringKey "b") false 0],
          HmKind.literal (.str "a"), HmKind.literal (.str "b"),
          HmKind.ctorK "undefined" [], HmKind.ctorK "@@union" [0, 4]], .ok 5) ∧
    getProp
      [HmKind.ctorK "number" [],
       HmKind.object [.prop (.stringKey "a") true 0, .prop (.stringKey "b") false 0],
       HmKind.literal (.str "a"), HmKind.literal (.str "b")] hmCtx0 1 3
      = ([HmKind.ctorK "number" [],
          HmKind.object [.prop (.stringKey "a") true 0, .prop (.stringKey "b") false 0],
          HmKind.literal (.str "a"), HmKind.literal (.str "b"),
          HmKind.ctorK "undefined" []], .ok 0) := by
  constructor
  · have h := (get_prop_string_key
      [HmKind.ctorK "number" [],
       HmKind.object [.prop (.stringKey "a") true 0, .prop (.stringKey "b") false 0],
       HmKind.literal (.str "a"), HmKind.literal (.str "b")] hmCtx0 1 2
      [.prop (.stringKey "a") true 0, .prop (.stringKey "b") false 0]
      [] [.prop (.stringKey "b") false 0] (.stringKey "a") "a" 0
      rfl rfl (fun e he => absurd he (List.not_mem_nil e)) rfl).1 rfl
    simpa using h
  · have h := (get_prop_string_key
      [HmKind.ctorK "number" [],
       HmKind.object [.prop (.stringKey "a") true 0, .prop (.stringKey "b") false 0],
       HmKind.literal (.str "a"), HmKind.literal (.str "b")] hmCtx0 1 3
      [.prop (.stringKey "a") true 0, .prop (.stringKey "b") false 0]
      [.prop (.stringKey "a") true 0] [] (.stringKey "b") "b" 0
      rfl rfl (by intro e he; fin_cases he; rfl) rfl).2 rfl
    simpa using h

end Escalier

namespace Escalier

/-- C6: counterexample — computed access on the tuple `[number, number]`
with the string-literal key `"length"` does not consult the Array
interface: the source delegates to `get_prop` (the Array-interface lookup
is a TODO comment), which rejects the tuple constructor as a non-object
receiver. -/
theorem tuple_string_key_not_array_interface :
    getComputedMember 2
      [HmKind.ctorK "number" [], .ctorK "@@tuple" [0, 0], .literal (.str "length")]
      hmCtx0 1 2
      = ([HmKind.ctorK "number" [], .ctorK "@@tuple" [0, 0], .literal (.str "length"),
          .ctorK "undefined" []],
         .error (.inferenceError "Can't access property on non-object type")) := rfl

/-- C6 (amended): computed member access `T[K]` on a `@@tuple` type
returns the element at index `n` when `K` is the numeric literal `n` and
`n` is in bounds; returns an out-of-bounds error when `n` is not less
than the tuple length; returns the fresh union of all tuple elements with
`undefined` when `K` is the keyword `number`; and when `K` is a string
literal it delegates to `get_prop` on the tuple itself, which fails with
a non-object error (the Array-interface consultation is unimplemented in
the source). -/
theorem tuple_computed_member (fuel : Nat) (a : Arena) (ctx : HmCtx)
    (objIdx keyIdx : Nat) (ts : List Nat)
    (hobj : aget a objIdx = some (.ctorK "@@tuple" ts)) :
    (∀ s n, aget a keyIdx = some (.literal (.num s)) → parseNat s = some n →
       n < ts.length →
       getComputedMember (fuel + 1) a ctx objIdx keyIdx = (a, .ok (ts.getD n 0))) ∧
    (∀ s n, aget a keyIdx = some (.literal (.num s)) → parseNat s = some n →
       ¬ n < ts.length →
       getComputedMember (fuel + 1) a ctx objIdx keyIdx
         = (a, .error (.inferenceError
             (toString n ++ " was outside the bounds 0.."
               ++ toString ts.length ++ " of the tuple")))) ∧
    (aget a keyIdx = some (.ctorK "number" []) →
       getComputedMember (fuel + 1) a ctx objIdx keyIdx
         = (a ++ [.ctorK "undefined" [], .ctorK "@@union" (ts ++ [a.length])],
            .ok (a.length + 1))) ∧
    (∀ s, aget a keyIdx = some (.literal (.str s)) →
       getComputedMember (fuel + 1) a ctx objIdx keyIdx
         = (a ++ [.ctorK "undefined" []],
            .error (.inferenceError "Can't access property on non-object type"))) := by
  refine ⟨?_, ?_, ?_, ?_⟩
  · intro s n hkey hparse hlt
    rw [getComputedMember]
    simp [hobj, hkey, hparse, hlt]
  · intro s n hkey hparse hge
    rw [getComputedMember]
    simp [hobj, hkey, hparse, hge]
  · intro hkey
    rw [getComputedMember]
    simp [hobj, hkey, newConstructor, newUnionType, ainsert, List.append_assoc]
  · intro s hkey
    have hobj' : aget (a ++ [HmKind.ctorK "undefined" []]) objIdx
        = some (.ctorK "@@tuple" ts) := aget_append a _ objIdx _ hobj
    have hkey' : aget (a ++ [HmKind.ctorK "undefined" []]) keyIdx
        = some (.literal (.str s)) := aget_append a _ keyIdx _ hkey
    rw [getComputedMember]
    simp only [hobj, hkey]
    show getProp a ctx objIdx keyIdx = _
    unfold getProp
    simp [newConstructor, ainsert, hobj', hkey']

/-- C6 witness: the theorem applied to the tuple `[number, number]` —
index 1 returns the stored element, index 7 is out of bounds, and the
`number` keyword key yields the fresh `number | number | undefined`
union. -/
theorem tuple_computed_member_witness :
    getComputedMember 1
      [HmKind.ctorK "number" [], .ctorK "@@tuple" [0, 0], .literal (.num "1")]
      hmCtx0 1 2
      = ([HmKind.ctorK "number" [], .ctorK "@@tuple" [0, 0], .literal (.num "1")],
         .ok 0) ∧
    getComputedMember 1
      [HmKind.ctorK "number" [], .ctorK "@@tuple" [0, 0], .literal (.num "7")]
      hmCtx0 1 2
      = ([HmKind.ctorK "number" [], .ctorK "@@tuple" [0, 0], .literal (.num "7")],
         .error (.inferenceError "7 was outside the bounds 0..2 of the tuple")) ∧
    getComputedMember 1
      [HmKind.ctorK "number" [], .ctorK "@@tuple" [0, 0], .ctorK "number" []]
      hmCtx0 1 2
      = ([HmKind.ctorK "number" [], .ctorK "@@tuple" [0, 0], .ctorK "number" [],
          .ctorK "undefined" [], .ctorK "@@union" [0, 0, 3]],
         .ok 4) := by
  refine ⟨?_, ?_, ?_⟩
  · have h := (tuple_computed_member 0
      [HmKind.ctorK "number" [], .ctorK "@@tuple" [0, 0], .literal (.num "1")]
      hmCtx0 1 2 [0, 0] rfl).1 "1" 1 rfl rfl (by decide)
    simpa using h
  · have h := (tuple_computed_member 0
      [HmKind.ctorK "number" [], .ctorK "@@tuple" [0, 0], .literal (.num "7")]
      hmCtx0 1 2 [0, 0] rfl).2.1 "7" 7 rfl rfl (by decide)
    simpa using h
  · have h := (tuple_computed_member 0
      [HmKind.ctorK "number" [], .ctorK "@@tuple" [0, 0], .ctorK "number" []]
      hmCtx0 1 2 [0, 0] rfl).2.2.1 rfl
    simpa using h

end Escalier

namespace Escalier

theorem keyofCollect_spec (props : List HmObjElem) : ∀ (a : Arena),
    keyofCollect a props
      = (a ++ (propKeyNames props).map (fun n => HmKind.literal (.str n)),
         (List.range (propKeyNames props).length).map (fun i => a.length + i)) := by
  induction props with
  | nil => intro a; simp [keyofCollect, propKeyNames]
  | cons e rest ih =>
      intro a
      cases e with
      | method name params ret => simpa [keyofCollect, propKeyNames] using ih a
      | index key t => simpa [keyofCollect, propKeyNames] using ih a
      | prop name o t =>
          have hrange : (List.range ((propKeyNames rest).length + 1)).map
                (fun i => a.length + i)
              = a.length :: (List.range (propKeyNames rest).length).map
                  (fun i => (a.length + 1) + i) := by
            rw [List.range_succ_eq_map]
            simp only [List.map_cons, List.map_map, Nat.add_zero]
            refine congrArg (a.length :: ·) ?_
            apply List.map_congr_left
            intro i _
            simp [Function.comp]
            omega
          simp only [keyofCollect, newLitType, ainsert, ih, propKeyNames,
            List.filterMap_cons_some, List.map_cons, List.length_cons, hrange]
          simp [List.append_assoc, propKeyNames]
          simp only [propKeyNames] at hrange
          exact hrange.symm

end Escalier

namespace Escalier

/-- C5: counterexample — `keyof` of an object whose only element is an
indexer with a `string` key yields the `never` constructor, not the
indexer's key type: the key-collection loop skips indexers (a TODO in the
source). -/
theorem expand_keyof_ignores_indexers :
    expandKeyof 3 [HmKind.ctorK "string" [], .object [.index ⟨0⟩ 0]] hmCtx0 1
      = ([HmKind.ctorK "string" [], .object [.index ⟨0⟩ 0], .ctorK "never" []],
         .ok 2) := rfl

/-- C5 (amended): expanding `keyof` on a type whose expansion is an
Object yields the union of string-literal types of its named properties
(indexers and methods contribute nothing — the indexer contribution is an
unimplemented TODO in the source): no keys give `never`, exactly one key
gives that single literal type, and more than one gives a fresh `@@union`
of the literals; applying `keyof` to a type whose expansion is not an
object is an error. -/
theorem expand_keyof_result (fuel : Nat) (a a1 : Arena) (ctx : HmCtx)
    (t obj : Nat) (h : expandType fuel a ctx t = (a1, .ok obj)) :
    (∀ props, aget a1 obj = some (.object props) →
       ((propKeyNames props = [] →
           expandKeyof (fuel + 1) a ctx t
             = (a1 ++ [.ctorK "never" []], .ok a1.length)) ∧
        (∀ n, propKeyNames props = [n] →
           expandKeyof (fuel + 1) a ctx t
             = (a1 ++ [.literal (.str n)], .ok a1.length)) ∧
        (∀ n1 n2 ns, propKeyNames props = n1 :: n2 :: ns →
           expandKeyof (fuel + 1) a ctx t
             = (a1 ++ (propKeyNames props).map (fun n => HmKind.literal (.str n))
                  ++ [.ctorK "@@union"
                       ((List.range (propKeyNames props).length).map
                         (fun i => a1.length + i))],
                .ok (a1.length + (propKeyNames props).length))))) ∧
    (∀ k, aget a1 obj = some k → isObjKind k = false →
       expandKeyof (fuel + 1) a ctx t
         = (a1, .error (.inferenceError (hmShow k ++ " isn't an object")))) := by
  constructor
  · intro props hprops
    refine ⟨?_, ?_, ?_⟩
    · intro hnames
      rw [expandKeyof]
      simp [h, hprops, keyofCollect_spec, hnames, newConstructor, ainsert]
    · intro n hnames
      rw [expandKeyof]
      have h1 : List.range 1 = [0] := rfl
      simp [h, hprops, keyofCollect_spec, hnames, newLitType, ainsert, h1]
    · intro n1 n2 ns hnames
      rw [expandKeyof]
      simp only [h, keyofCollect_spec, hprops]
      rw [hnames]
      simp only [List.length_cons, List.range_succ_eq_map, List.map_cons,
        List.map_map]
      simp [newUnionType, ainsert, hnames, List.range_succ_eq_map,
        List.map_map, Function.comp, List.append_assoc]
  · intro k hk hnotobj
    rw [expandKeyof]
    simp only [h]
    cases k with
    | object props => simp [isObjKind] at hnotobj
    | tvar inst => simp [hk, hmShow]
    | literal l => simp [hk, hmShow]
    | restK arg => simp [hk, hmShow]
    | func ps rt => simp [hk, hmShow]
    | ctorK nm ts => simp [hk, hmShow]
    | utility nm ts => simp [hk, hmShow]

/-- C5 witness: the theorem applied to the object `\x7ba: X, b?: Y\x7d`
(two keys, giving the union `"a" | "b"`), to `\x7b\x7d` (no keys,
giving `never`), and to a numeric literal (not an object, giving an
error). -/
theorem expand_keyof_result_witness :
    expandKeyof 2
      [HmKind.object [.prop (.stringKey "a") false 0, .prop (.stringKey "b") true 0]]
      hmCtx0 0
      = ([HmKind.object [.prop (.stringKey "a") false 0,
            .prop (.stringKey "b") true 0],
          .literal (.str "a"), .literal (.str "b"), .ctorK "@@union" [1, 2]],
         .ok 3) ∧
    expandKeyof 2 [HmKind.object []] hmCtx0 0
      = ([HmKind.object [], .ctorK "never" []], .ok 1) ∧
    expandKeyof 2 [HmKind.literal (.num "5")] hmCtx0 0
      = ([HmKind.literal (.num "5")],
         .error (.inferenceError "5 isn't an object")) := by
  refine ⟨?_, ?_, ?_⟩
  · have h := ((expand_keyof_result 1
      [HmKind.object [.prop (.stringKey "a") false 0, .prop (.stringKey "b") true 0]]
      [HmKind.object [.prop (.stringKey "a") false 0, .prop (.stringKey "b") true 0]]
      hmCtx0 0 0 rfl).1
      [.prop (.stringKey "a") false 0, .prop (.stringKey "b") true 0] rfl).2.2
      "a" "b" [] rfl
    simpa using h
  · have h := ((expand_keyof_result 1 [HmKind.object []] [HmKind.object []]
      hmCtx0 0 0 rfl).1 [] rfl).1 rfl
    simpa using h
  · have h := (expand_keyof_result 1 [HmKind.literal (.num "5")]
      [HmKind.literal (.num "5")] hmCtx0 0 0 rfl).2
      (.literal (.num "5")) rfl rfl
    simpa using h

end Escalier
